import Mathlib

/-!
Shallow embedding of the Swift IRGen name mangler (lib/IRGen/Mangle.cpp).

The mangler converts declarations and types of the compiler's semantic model
into linker symbol strings.  The embedding models the mangler state
(substitution table, archetype map, archetype depth) explicitly, represents
the emitted byte sequence as a returned `List Char` (the C++ code appends to
an `raw_ostream` buffer that is never read back, so returning the emitted
bytes and concatenating them in emission order is equivalent), and represents
every fatal precondition (`assert` / `llvm_unreachable`) as `Option.none`.

AST values (declarations, contexts, types, generic parameter lists) are
modelled as trees.  Pointer identities that the C++ code uses as map keys
(module pointers, declared-type pointers, archetype pointers) are modelled as
natural-number ids carried by the corresponding nodes.
-/

/-- ExplosionKind (IRGen): calling-convention expansion strategy.  The value
is threaded through the mangler exactly as in the source. -/
inductive ExplosionKind
  | minimal
  | maximal
deriving DecidableEq, Repr

/-- IncludeType from Mangle.cpp. -/
inductive IncludeType
  | no
  | yes
deriving DecidableEq, Repr

/-- BuiltinFloatType fp kinds that mangleType accepts (PPC128 is
llvm_unreachable in the source and is left out of the model). -/
inductive BuiltinFloatKind
  | ieee16
  | ieee32
  | ieee64
  | ieee80
  | ieee128
deriving DecidableEq, Repr

/-- Nominal declaration kinds accepted by getSpecifierForNominalType. -/
inductive NominalKind
  | protocolKind
  | classKind
  | oneOfKind
  | structKind
deriving DecidableEq, Repr

/-- ConstructorKind from Linking.h, as consumed by mangleConstructorKind. -/
inductive ConstructorKind
  | allocating
  | initializing
deriving DecidableEq, Repr

/-- DestructorKind, as consumed by LinkEntity::mangle. -/
inductive DestructorKind
  | deallocating
  | destroying
deriving DecidableEq, Repr

/-- ValueWitness selectors (ValueWitness.h).  The last three are not function
witnesses and are llvm_unreachable in mangleValueWitness. -/
inductive ValueWitness
  | allocateBuffer
  | assignWithCopy
  | assignWithTake
  | deallocateBuffer
  | destroy
  | destroyBuffer
  | initializeBufferWithCopyOfBuffer
  | initializeBufferWithCopy
  | initializeWithCopy
  | initializeBufferWithTake
  | initializeWithTake
  | projectBuffer
  | size
  | alignment
  | stride
deriving DecidableEq, Repr

/-- Modelled from the spec: the Clang declaration attached to an imported
declaration (the clang AST is outside this repository).  Only the facts the
mangler queries are modelled: whether the node is a `clang::DeclaratorDecl`
(carrying a name emitted verbatim), a `clang::ObjCInterfaceDecl`, or some
other Clang declaration such as an Objective-C method. -/
inductive ClangDecl
  | declarator (name : String)
  | objcInterface (name : String)
  | objcMethod (name : String)
deriving DecidableEq, Repr

/-- Identifier: a declaration or module name.  `isOperator` models
Identifier::isOperator (the AST accessor lives outside this repository; per
the spec a name is either a plain identifier or composed entirely of the
fixed operator-character set). -/
structure Identifier where
  str : String
  isOperator : Bool
deriving DecidableEq, Repr

/-- Keys of the substitution table.  The C++ table is keyed on `void*`
pointer identity; the two pointer families actually used are module pointers
(from mangleDeclContext) and declared-type / protocol-type pointers (from
mangleNominalType and mangleProtocolName), modelled by the ids carried on the
corresponding nodes. -/
inductive SubstKey
  | moduleKey (id : Nat)
  | typeKey (id : Nat)
deriving DecidableEq, Repr

/-- ArchetypeInfo from Mangle.cpp: the recorded binding of an archetype. -/
structure ArchetypeInfo where
  depth : Nat
  index : Nat
deriving DecidableEq, Repr

/-- Mangler state: the substitution table (insertion-ordered, the index of a
key is its position), the archetype map, and ArchetypesDepth. -/
structure MangleState where
  substitutions : List SubstKey
  archetypes : List (Nat × ArchetypeInfo)
  archetypesDepth : Nat
deriving DecidableEq, Repr

/-- Initial state of a freshly constructed Mangler. -/
def MangleState.initial : MangleState :=
  { substitutions := [], archetypes := [], archetypesDepth := 0 }

/-- The mangler monad: state plus failure.  Failure models the fatal
preconditions (`assert`, `llvm_unreachable`) of the source; there is no
recovery.  A computation returns the bytes it emits. -/
def MangleM (α : Type) : Type := MangleState → Option (α × MangleState)

def MangleM.pure {α : Type} (a : α) : MangleM α := fun s => Option.some (a, s)

def MangleM.bind {α β : Type} (m : MangleM α) (f : α → MangleM β) : MangleM β := fun s =>
  match m s with
  | Option.none => Option.none
  | Option.some (a, s1) => f a s1

instance MangleM.instMonad : Monad MangleM where
  pure := MangleM.pure
  bind := MangleM.bind

/-- Fatal precondition: an assert or llvm_unreachable fired. -/
def MangleM.fail {α : Type} : MangleM α := fun _ => Option.none

def MangleM.get : MangleM MangleState := fun s => Option.some (s, s)

def MangleM.modify (f : MangleState → MangleState) : MangleM Unit :=
  fun s => Option.some ((), f s)

def MangleM.ofOption {α : Type} (o : Option α) : MangleM α := fun s =>
  match o with
  | Option.none => Option.none
  | Option.some a => Option.some (a, s)

/-- Decimal digits of a natural number, as emitted by `raw_ostream <<`. -/
def natChars (n : Nat) : List Char := (Nat.repr n).data

/-- Index wrapper from Mangle.cpp: `if (n.N != 0) out << (n.N - 1); out << '_'`. -/
def indexChars (n : Nat) : List Char :=
  (if n = 0 then [] else natChars (n - 1)) ++ ['_']

/-- The fixed operator-character translation table of mangleOperatorChar:
and, divide, equal, greater, less, multiply, negate, or, plus, remainder,
subtract, xor, tilde, period. -/
def operatorCharTable : List (Char × Char) :=
  [('&', 'a'), ('/', 'd'), ('=', 'e'), ('>', 'g'), ('<', 'l'), ('*', 'm'),
   ('!', 'n'), ('|', 'o'), ('+', 'p'), ('%', 'r'), ('-', 's'), ('^', 'x'),
   ('~', 't'), ('.', 'z')]

/-- First-match lookup in a character translation table. -/
def lookupOperatorChar : List (Char × Char) → Char → Option Char
  | [], _ => Option.none
  | (k, v) :: rest, c => if c = k then Option.some v else lookupOperatorChar rest c

/-- mangleOperatorChar: translate an operator character into its mangled
form through the fixed table (the source's switch); characters outside the
table hit llvm_unreachable. -/
def mangleOperatorChar (op : Char) : Option Char :=
  lookupOperatorChar operatorCharTable op

/-- Translate every character of an operator identifier. -/
def mangleOperatorChars : List Char → Option (List Char)
  | [] => Option.some []
  | c :: rest =>
    match mangleOperatorChar c, mangleOperatorChars rest with
    | Option.some c1, Option.some rest1 => Option.some (c1 :: rest1)
    | _, _ => Option.none

/-- Mangler::mangleIdentifier: plain identifiers are length-prefixed verbatim
characters; operator identifiers are `op`, the length, and the translated
characters.  An empty identifier is a fatal precondition. -/
def mangleIdentifier (ident : Identifier) : MangleM (List Char) :=
  if ident.str.data = [] then MangleM.fail
  else if ident.isOperator = false then
    MangleM.pure (natChars ident.str.data.length ++ ident.str.data)
  else do
    let translated ← MangleM.ofOption (mangleOperatorChars ident.str.data)
    MangleM.pure ('o' :: 'p' :: (natChars ident.str.data.length ++ translated))

/-- Position of a key in the substitution table (DenseMap lookup; the stored
value of a key is the table size at its insertion, i.e. its position). -/
def substIndex : List SubstKey → SubstKey → Option Nat
  | [], _ => Option.none
  | k1 :: rest, k =>
    if k1 = k then Option.some 0
    else (substIndex rest k).map (fun n => n + 1)

/-- Mangler::tryMangleSubstitution.  The C++ function emits into the buffer
and reports success as a bool; here the emitted bytes are returned
(`Option.none` means the key was not found and nothing was emitted). -/
def tryMangleSubstitution (key : SubstKey) : MangleM (Option (List Char)) := do
  let st ← MangleM.get
  match substIndex st.substitutions key with
  | Option.none => MangleM.pure Option.none
  | Option.some index =>
    MangleM.pure (Option.some
      ('S' :: ((if index = 0 then [] else natChars (index - 1)) ++ ['_'])))

/-- Mangler::addSubstitution: `Substitutions.insert(make_pair(ptr, size))`.
DenseMap::insert does not overwrite an existing entry. -/
def addSubstitution (key : SubstKey) : MangleM Unit :=
  MangleM.modify (fun st =>
    if (substIndex st.substitutions key).isSome then st
    else { st with substitutions := st.substitutions ++ [key] })

/-- Lookup in the archetype map. -/
def findArchetype : List (Nat × ArchetypeInfo) → Nat → Option ArchetypeInfo
  | [], _ => Option.none
  | (id1, info) :: rest, id =>
    if id1 = id then Option.some info else findArchetype rest id

/-- getSpecifierForNominalType. -/
def getSpecifierForNominalType (kind : NominalKind) : Char :=
  match kind with
  | NominalKind.protocolKind => 'P'
  | NominalKind.classKind => 'C'
  | NominalKind.oneOfKind => 'O'
  | NominalKind.structKind => 'V'

/-- mangleConstructorKind. -/
def mangleConstructorKind (kind : ConstructorKind) : Char :=
  match kind with
  | ConstructorKind.allocating => 'C'
  | ConstructorKind.initializing => 'c'

/-- mangleValueWitness: the fixed two-letter selector codes; the non-function
witnesses are llvm_unreachable. -/
def mangleValueWitness (witness : ValueWitness) : Option (List Char) :=
  match witness with
  | ValueWitness.allocateBuffer => Option.some ('a' :: 'l' :: [])
  | ValueWitness.assignWithCopy => Option.some ('a' :: 'c' :: [])
  | ValueWitness.assignWithTake => Option.some ('a' :: 't' :: [])
  | ValueWitness.deallocateBuffer => Option.some ('d' :: 'e' :: [])
  | ValueWitness.destroy => Option.some ('x' :: 'x' :: [])
  | ValueWitness.destroyBuffer => Option.some ('X' :: 'X' :: [])
  | ValueWitness.initializeBufferWithCopyOfBuffer => Option.some ('C' :: 'P' :: [])
  | ValueWitness.initializeBufferWithCopy => Option.some ('C' :: 'p' :: [])
  | ValueWitness.initializeWithCopy => Option.some ('c' :: 'p' :: [])
  | ValueWitness.initializeBufferWithTake => Option.some ('T' :: 'k' :: [])
  | ValueWitness.initializeWithTake => Option.some ('t' :: 'k' :: [])
  | ValueWitness.projectBuffer => Option.some ('p' :: 'r' :: [])
  | ValueWitness.size => Option.none
  | ValueWitness.alignment => Option.none
  | ValueWitness.stride => Option.none

/-- Mangler::mangleDirectness. -/
def mangleDirectness (isIndirect : Bool) : Char :=
  if isIndirect then 'i' else 'd'

mutual

/-- Types of the semantic model (TypeBase).  The C++ TypeKinds OneOf,
Protocol, Struct, Class and UnboundGeneric all mangle by delegating to
mangleNominalType on their declaration and are modelled by the single
`nominal` constructor; the declaration's own kind distinguishes them.
`sugared` stands for every SUGARED_TYPE case and carries the underlying type
(getDesugaredType, whose implementation is outside this repository).  The
`isBlock` flag on function types models isBlockFunctionType (GenFunc.h,
outside this repository; per the spec, function types carry a
calling-convention flag distinguishing native from foreign-block
representation).  Fatal inputs (Error, UnstructuredUnresolved,
DeducibleGenericParam, TypeVariable, Module) are not representable. -/
inductive Ty
  | builtinFloat (kind : BuiltinFloatKind)
  | builtinInteger (bitWidth : Nat)
  | builtinRawPointer
  | builtinOpaquePointer
  | builtinObjectPointer
  | builtinObjCPointer
  | sugared (underlying : Ty)
  | metaType (instanceTy : Ty)
  | lvalue (objectTy : Ty)
  | tuple (fields : List (Option Identifier × Ty))
  | nominal (decl : ValueDecl)
  | boundGeneric (decl : ValueDecl) (args : List Ty)
  | polymorphicFunction (genericParams : GenericParamList) (input : Ty) (result : Ty)
      (isBlock : Bool)
  | archetype (id : Nat)
  | function (input : Ty) (result : Ty) (isBlock : Bool)
  | array (size : Nat) (baseTy : Ty)
  | protocolComposition (protocols : List Ty)

/-- ValueDecl: name, kind-specific data, declaration context, the generic
parameter list of the enclosing context (modelled from the spec: the AST
accessor getGenericParamsOfContext is outside this repository; storage-like
declarations need their enclosing generic context bound before their type is
mangled), the declared type, the attached Clang declaration if imported, the
asm-name attribute ("" when absent), and isObjC. -/
inductive ValueDecl
  | mk (name : Identifier) (kind : ValueDeclKind) (context : DeclContext)
      (contextGenericParams : Option GenericParamList) (ty : Ty)
      (clang : Option ClangDecl) (asmName : String) (isObjC : Bool)

/-- Kind-specific data of a ValueDecl, mirroring the ClassifyDecl visitor:
TypeDecls (including nominal type declarations), functions (with the
getter/setter link used by mangleGetterOrSetterContext), constructors,
destructors, vars, subscripts and oneof elements.  Nominal type declarations
carry their kind and the pointer identity of decl->getDeclaredType(). -/
inductive ValueDeclKind
  | typeDecl
  | nominalTypeDecl (kind : NominalKind) (declaredTypeId : Nat)
  | funcDecl (accessor : AccessorRef)
  | constructorDecl
  | destructorDecl
  | varDecl
  | subscriptDecl
  | oneOfElementDecl (hasArgumentType : Bool)

/-- FuncDecl accessor information: whether this function is the getter or the
setter of a var/subscript declaration (getGetterDecl / getSetterDecl). -/
inductive AccessorRef
  | notAccessor
  | getterOf (target : ValueDecl)
  | setterOf (target : ValueDecl)

/-- DeclContext tree (DeclContextKind cases of mangleDeclContext).  Modules
(TranslationUnit) carry their name, their pointer identity used as a
substitution key, and their parent context.  Extensions carry the canonical
form of the extended type (getExtendedType()->getCanonicalType(), computed
outside this repository).  CapturingExpr carries the FuncExpr's declaration
when present (a FuncExpr with no decl is the unnamed-closure fatal case; a
non-FuncExpr CapturingExpr is likewise fatal and is modelled the same way). -/
inductive DeclContext
  | builtinModule
  | clangModule
  | translationUnit (name : Identifier) (moduleId : Nat) (parent : Option DeclContext)
  | nominalTypeDecl (decl : ValueDecl)
  | extensionDecl (extendedCanonicalTy : Ty)
  | capturingExpr (funcDecl : Option ValueDecl)
  | constructorDecl (decl : ValueDecl)
  | destructorDecl (decl : ValueDecl)
  | topLevelCodeDecl

/-- GenericParamList: the archetypes of this list (getAllArchetypes, stored
as data) and the outer parameter list chain (getOuterParameters). -/
inductive GenericParamList
  | mk (archetypes : List Archetype) (outerParameters : Option GenericParamList)

/-- ArchetypeType: its pointer identity and its conformance requirements
(getConformsTo), which are protocol declarations. -/
inductive Archetype
  | mk (id : Nat) (conformsTo : List ValueDecl)

end

def ValueDecl.name : ValueDecl → Identifier
  | ValueDecl.mk n _ _ _ _ _ _ _ => n

def ValueDecl.kind : ValueDecl → ValueDeclKind
  | ValueDecl.mk _ k _ _ _ _ _ _ => k

def ValueDecl.context : ValueDecl → DeclContext
  | ValueDecl.mk _ _ c _ _ _ _ _ => c

def ValueDecl.contextGenericParams : ValueDecl → Option GenericParamList
  | ValueDecl.mk _ _ _ g _ _ _ _ => g

def ValueDecl.ty : ValueDecl → Ty
  | ValueDecl.mk _ _ _ _ t _ _ _ => t

def ValueDecl.clang : ValueDecl → Option ClangDecl
  | ValueDecl.mk _ _ _ _ _ c _ _ => c

def ValueDecl.asmName : ValueDecl → String
  | ValueDecl.mk _ _ _ _ _ _ a _ => a

def ValueDecl.isObjC : ValueDecl → Bool
  | ValueDecl.mk _ _ _ _ _ _ _ o => o

/-- isa+ClassDecl test on a ValueDecl. -/
def ValueDecl.isClassDecl (d : ValueDecl) : Bool :=
  match d.kind with
  | ValueDeclKind.nominalTypeDecl NominalKind.classKind _ => true
  | _ => false

/-- FuncDecl::isGetterOrSetter. -/
def ValueDecl.isGetterOrSetter (d : ValueDecl) : Bool :=
  match d.kind with
  | ValueDeclKind.funcDecl (AccessorRef.getterOf _) => true
  | ValueDeclKind.funcDecl (AccessorRef.setterOf _) => true
  | _ => false

/-- isa+VarDecl-or-SubscriptDecl test (the assert in
mangleGetterOrSetterContext). -/
def ValueDecl.isVarOrSubscript (d : ValueDecl) : Bool :=
  match d.kind with
  | ValueDeclKind.varDecl => true
  | ValueDeclKind.subscriptDecl => true
  | _ => false

/-- Number of lists in a generic parameter chain, inclusive: the do-while
loop of bindGenericParameters increments ArchetypesDepth once per link. -/
def GenericParamList.chainLength : GenericParamList → Nat
  | GenericParamList.mk _ Option.none => 1
  | GenericParamList.mk _ (Option.some outer) => 1 + outer.chainLength

/-- isSwiftModule: no parent and the name is "swift". -/
def isSwiftTranslationUnit (name : Identifier) (parent : Option DeclContext) : Bool :=
  parent.isNone && (name.str = "swift")

/-- The fixed standard-substitution tokens of tryMangleStandardSubstitution
for base-library scalar types. -/
def standardSubstitutionTable : List (String × List Char) :=
  [("Int64", 'S' :: 'i' :: []), ("UInt64", 'S' :: 'u' :: []),
   ("Bool", 'S' :: 'b' :: []), ("Char", 'S' :: 'c' :: []),
   ("Float64", 'S' :: 'd' :: []), ("Float32", 'S' :: 'f' :: []),
   ("String", 'S' :: 'S' :: [])]

/-- First-match lookup in the standard-substitution table. -/
def lookupStandardSubstitution : List (String × List Char) → String → Option (List Char)
  | [], _ => Option.none
  | (k, v) :: rest, s =>
    if s = k then Option.some v else lookupStandardSubstitution rest s

/-- Mangler::tryMangleStandardSubstitution: fixed two-character tokens for
certain standard-library types (the source's name-comparison chain, as a
table); fires only when the declaring context is the swift module. -/
def tryMangleStandardSubstitution (d : ValueDecl) : Option (List Char) :=
  match d.context with
  | DeclContext.translationUnit mname _ mparent =>
    if isSwiftTranslationUnit mname mparent then
      lookupStandardSubstitution standardSubstitutionTable d.name.str
    else Option.none
  | _ => Option.none

mutual

/-- Mangler::mangleContextOf: classes published as Objective-C classes get
the known-context token `So` (with the assert that an attached Clang decl is
an ObjCInterfaceDecl); otherwise the declaration's DeclContext is mangled. -/
def mangleContextOf (d : ValueDecl) : MangleM (List Char) :=
  match d with
  | ValueDecl.mk _ kind context _ _ clang _ isObjC =>
    if (match kind with
        | ValueDeclKind.nominalTypeDecl NominalKind.classKind _ => true
        | _ => false)
       && (clang.isSome || isObjC) then
      match clang with
      | Option.none => MangleM.pure ('S' :: 'o' :: [])
      | Option.some (ClangDecl.objcInterface _) => MangleM.pure ('S' :: 'o' :: [])
      | Option.some _ => MangleM.fail
    else
      mangleDeclContext context
termination_by (sizeOf d, 1)

/-- Mangler::mangleDeclContext: the per-DeclContextKind switch. -/
def mangleDeclContext (ctx : DeclContext) : MangleM (List Char) :=
  match ctx with
  | DeclContext.builtinModule => MangleM.fail
  | DeclContext.clangModule => MangleM.pure []
  | DeclContext.translationUnit mname moduleId mparent =>
    if isSwiftTranslationUnit mname mparent then MangleM.pure ('S' :: 's' :: [])
    else do
      match ← tryMangleSubstitution (SubstKey.moduleKey moduleId) with
      | Option.some token => MangleM.pure token
      | Option.none => do
        let parentChars ← (match mparent with
          | Option.some p => mangleDeclContext p
          | Option.none => MangleM.pure [])
        let identChars ← mangleIdentifier mname
        addSubstitution (SubstKey.moduleKey moduleId)
        MangleM.pure (parentChars ++ identChars)
  | DeclContext.nominalTypeDecl decl => mangleNominalType decl ExplosionKind.minimal
  | DeclContext.extensionDecl extendedCanonicalTy =>
    mangleType extendedCanonicalTy ExplosionKind.minimal 0
  | DeclContext.capturingExpr funcDecl =>
    (match funcDecl with
     | Option.some fd =>
       if fd.isGetterOrSetter then mangleGetterOrSetterContext fd
       else mangleDeclName fd IncludeType.yes
     | Option.none => MangleM.fail)
  | DeclContext.constructorDecl decl => mangleDeclName decl IncludeType.yes
  | DeclContext.destructorDecl decl => mangleDeclName decl IncludeType.no
  | DeclContext.topLevelCodeDecl => MangleM.pure []
termination_by (sizeOf ctx, 9)

/-- Mangler::mangleGetterOrSetterContext: mangle the underlying var or
subscript declaration's name and canonical type, then `g` or `s`. -/
def mangleGetterOrSetterContext (f : ValueDecl) : MangleM (List Char) :=
  match f with
  | ValueDecl.mk _ (ValueDeclKind.funcDecl (AccessorRef.getterOf target)) _ _ _ _ _ _ =>
    if target.isVarOrSubscript then do
      let nameChars ← mangleDeclName target IncludeType.no
      let tyChars ← mangleDeclType target ExplosionKind.minimal 0
      MangleM.pure (nameChars ++ tyChars ++ ['g'])
    else MangleM.fail
  | ValueDecl.mk _ (ValueDeclKind.funcDecl (AccessorRef.setterOf target)) _ _ _ _ _ _ =>
    if target.isVarOrSubscript then do
      let nameChars ← mangleDeclName target IncludeType.no
      let tyChars ← mangleDeclType target ExplosionKind.minimal 0
      MangleM.pure (nameChars ++ tyChars ++ ['s'])
    else MangleM.fail
  | _ => MangleM.fail
termination_by (sizeOf f, 5)

/-- Mangler::mangleDeclName: context, identifier, and (for IncludeType::Yes)
the declaration type at the canonical (Minimal, 0) parameters. -/
def mangleDeclName (d : ValueDecl) (includeType : IncludeType) : MangleM (List Char) := do
  let contextChars ← mangleContextOf d
  let identChars ← mangleIdentifier d.name
  match includeType with
  | IncludeType.no => MangleM.pure (contextChars ++ identChars)
  | IncludeType.yes => do
    let tyChars ← mangleDeclType d ExplosionKind.minimal 0
    MangleM.pure (contextChars ++ identChars ++ tyChars)
termination_by (sizeOf d, 2)

/-- Mangler::mangleDeclType: the ClassifyDecl visitor decides whether the
type is mangled and whether contextual archetypes are bound first;
ArchetypesDepth is saved and restored around the whole body
(llvm::SaveAndRestore). -/
def mangleDeclType (d : ValueDecl) (explosion : ExplosionKind) (uncurryLevel : Nat) :
    MangleM (List Char) :=
  match d with
  | ValueDecl.mk _ kind _ contextGenericParams ty _ _ _ => do
    let mangleTheType : Bool := (match kind with
      | ValueDeclKind.typeDecl => false
      | ValueDeclKind.nominalTypeDecl _ _ => false
      | _ => true)
    let bindParams : Bool := (match kind with
      | ValueDeclKind.varDecl => true
      | ValueDeclKind.subscriptDecl => true
      | ValueDeclKind.oneOfElementDecl hasArgumentType => hasArgumentType
      | _ => false)
    let st0 ← MangleM.get
    let savedDepth := st0.archetypesDepth
    let _ ← (if bindParams then
      match contextGenericParams with
      | Option.some gp => bindGenericParameters gp false
      | Option.none => MangleM.pure []
    else MangleM.pure [])
    let out ← (if mangleTheType then mangleType ty explosion uncurryLevel
               else MangleM.pure [])
    MangleM.modify (fun st => { st with archetypesDepth := savedDepth })
    MangleM.pure out
termination_by (sizeOf d, 1)

/-- Mangler::bindGenericParameters: walk the parent chain to advance
ArchetypesDepth, then record (and optionally mangle) this list's
archetypes. -/
def bindGenericParameters (genericParams : GenericParamList) (mangleParams : Bool) :
    MangleM (List Char) :=
  match genericParams with
  | GenericParamList.mk archetypes outerParameters => do
    MangleM.modify (fun st =>
      { st with archetypesDepth :=
          st.archetypesDepth +
            (GenericParamList.mk archetypes outerParameters).chainLength })
    let paramChars ← bindArchetypes archetypes mangleParams 0
    if mangleParams then MangleM.pure (paramChars ++ ['_'])
    else MangleM.pure paramChars
termination_by (sizeOf genericParams, 1)

/-- Loop body of bindGenericParameters over getAllArchetypes: record each
archetype at the current depth with its positional index (the assert that it
is not already bound is a fatal precondition), and when mangling, emit its
protocol-list production followed by `_`. -/
def bindArchetypes (archetypes : List Archetype) (mangleParams : Bool) (index : Nat) :
    MangleM (List Char) :=
  match archetypes with
  | [] => MangleM.pure []
  | Archetype.mk id conformsTo :: rest => do
    let st ← MangleM.get
    if (findArchetype st.archetypes id).isSome then MangleM.fail
    else do
      MangleM.modify (fun st1 =>
        { st1 with archetypes :=
            st1.archetypes ++ [(id, { depth := st1.archetypesDepth, index := index })] })
      if mangleParams then do
        let protocolChars ← mangleProtocolListDecls conformsTo
        let restChars ← bindArchetypes rest mangleParams (index + 1)
        MangleM.pure (protocolChars ++ ['_'] ++ restChars)
      else
        bindArchetypes rest mangleParams (index + 1)
termination_by (sizeOf archetypes, 0)

/-- Mangler::manglePolymorphicType.  The only call site (the
PolymorphicFunction case of mangleType) passes mangleAsFunction = true and
the function type itself, so the embedding takes the function type's pieces
directly.  ArchetypesDepth is saved and restored around the body
(llvm::SaveAndRestore); the archetype map is not saved. -/
def manglePolymorphicType (genericParams : GenericParamList) (input : Ty) (result : Ty)
    (isBlock : Bool) (explosion : ExplosionKind) (uncurryLevel : Nat) :
    MangleM (List Char) := do
  let st0 ← MangleM.get
  let savedDepth := st0.archetypesDepth
  let paramChars ← bindGenericParameters genericParams true
  let fnChars ← mangleFunctionType input result isBlock explosion uncurryLevel
  MangleM.modify (fun st => { st with archetypesDepth := savedDepth })
  MangleM.pure (paramChars ++ fnChars)
termination_by (sizeOf genericParams + sizeOf input + sizeOf result + 2, 0)

/-- Mangler::mangleNominalType: standard substitution first, then the
substitution table keyed on the declared type, then the specifier letter and
the declaration name, recording the substitution after the spelling. -/
def mangleNominalType (d : ValueDecl) (explosion : ExplosionKind) : MangleM (List Char) :=
  match d.kind with
  | ValueDeclKind.nominalTypeDecl nominalKind declaredTypeId =>
    (match tryMangleStandardSubstitution d with
     | Option.some token => MangleM.pure token
     | Option.none => do
       match ← tryMangleSubstitution (SubstKey.typeKey declaredTypeId) with
       | Option.some token => MangleM.pure token
       | Option.none => do
         let nameChars ← mangleDeclName d IncludeType.no
         addSubstitution (SubstKey.typeKey declaredTypeId)
         MangleM.pure (getSpecifierForNominalType nominalKind :: nameChars))
  | _ => MangleM.fail
termination_by (sizeOf d, 4)

/-- Mangler::mangleProtocolName: the declared ProtocolType is the
substitution key; otherwise the decl-name production without the surrounding
P..._ wrapper, recording the substitution afterwards. -/
def mangleProtocolName (protocol : ValueDecl) : MangleM (List Char) :=
  match protocol.kind with
  | ValueDeclKind.nominalTypeDecl NominalKind.protocolKind declaredTypeId => do
    match ← tryMangleSubstitution (SubstKey.typeKey declaredTypeId) with
    | Option.some token => MangleM.pure token
    | Option.none => do
      let nameChars ← mangleDeclName protocol IncludeType.no
      addSubstitution (SubstKey.typeKey declaredTypeId)
      MangleM.pure nameChars
  | _ => MangleM.fail
termination_by (sizeOf protocol, 3)

/-- Mangler::mangleProtocolList over ArrayRef of Type: each element must be
a protocol type (castTo of ProtocolType). -/
def mangleProtocolListTypes (protocols : List Ty) : MangleM (List Char) :=
  match protocols with
  | [] => MangleM.pure []
  | Ty.nominal d :: rest => do
    let headChars ← mangleProtocolName d
    let restChars ← mangleProtocolListTypes rest
    MangleM.pure (headChars ++ restChars)
  | _ :: _ => MangleM.fail
termination_by (sizeOf protocols, 0)

/-- Mangler::mangleProtocolList over ArrayRef of ProtocolDecl. -/
def mangleProtocolListDecls (protocols : List ValueDecl) : MangleM (List Char) :=
  match protocols with
  | [] => MangleM.pure []
  | d :: rest => do
    let headChars ← mangleProtocolName d
    let restChars ← mangleProtocolListDecls rest
    MangleM.pure (headChars ++ restChars)
termination_by (sizeOf protocols, 0)

/-- Mangler::mangleType: the per-TypeKind switch. -/
def mangleType (t : Ty) (explosion : ExplosionKind) (uncurryLevel : Nat) :
    MangleM (List Char) :=
  match t with
  | Ty.builtinFloat fpKind =>
    (match fpKind with
     | BuiltinFloatKind.ieee16 => MangleM.pure (('B' :: 'f' :: natChars 16) ++ ['_'])
     | BuiltinFloatKind.ieee32 => MangleM.pure (('B' :: 'f' :: natChars 32) ++ ['_'])
     | BuiltinFloatKind.ieee64 => MangleM.pure (('B' :: 'f' :: natChars 64) ++ ['_'])
     | BuiltinFloatKind.ieee80 => MangleM.pure (('B' :: 'f' :: natChars 80) ++ ['_'])
     | BuiltinFloatKind.ieee128 => MangleM.pure (('B' :: 'f' :: natChars 128) ++ ['_']))
  | Ty.builtinInteger bitWidth =>
    MangleM.pure (('B' :: 'i' :: natChars bitWidth) ++ ['_'])
  | Ty.builtinRawPointer => MangleM.pure ('B' :: 'p' :: [])
  | Ty.builtinOpaquePointer => MangleM.pure ('B' :: 'u' :: [])
  | Ty.builtinObjectPointer => MangleM.pure ('B' :: 'o' :: [])
  | Ty.builtinObjCPointer => MangleM.pure ('B' :: 'O' :: [])
  | Ty.sugared underlying => mangleType underlying explosion uncurryLevel
  | Ty.metaType instanceTy => do
    let instanceChars ← mangleType instanceTy ExplosionKind.minimal 0
    MangleM.pure ('M' :: instanceChars)
  | Ty.lvalue objectTy => do
    let objectChars ← mangleType objectTy ExplosionKind.minimal 0
    MangleM.pure ('R' :: objectChars)
  | Ty.tuple fields => do
    let fieldChars ← mangleTupleFields fields explosion
    MangleM.pure (('T' :: fieldChars) ++ ['_'])
  | Ty.nominal decl => mangleNominalType decl explosion
  | Ty.boundGeneric decl args => do
    let nameChars ← mangleNominalType decl explosion
    let argChars ← mangleBoundGenericArgs args
    MangleM.pure (('G' :: nameChars ++ argChars) ++ ['_'])
  | Ty.polymorphicFunction genericParams input result isBlock => do
    let bodyChars ← manglePolymorphicType genericParams input result isBlock explosion
      uncurryLevel
    MangleM.pure ('U' :: bodyChars)
  | Ty.archetype id => do
    let st ← MangleM.get
    match findArchetype st.archetypes id with
    | Option.none => MangleM.fail
    | Option.some info =>
      if st.archetypesDepth < info.depth then MangleM.fail
      else
        MangleM.pure
          ('Q' ::
            ((if st.archetypesDepth - info.depth = 0 then []
              else 'd' :: indexChars (st.archetypesDepth - info.depth - 1)) ++
             indexChars info.index))
  | Ty.function input result isBlock =>
    mangleFunctionType input result isBlock explosion uncurryLevel
  | Ty.array size baseTy => do
    let baseChars ← mangleType baseTy ExplosionKind.minimal 0
    MangleM.pure (('A' :: natChars size) ++ baseChars)
  | Ty.protocolComposition protocols =>
    if protocols.length = 1 then MangleM.fail
    else do
      let listChars ← mangleProtocolListTypes protocols
      MangleM.pure (('P' :: listChars) ++ ['_'])
termination_by (sizeOf t, 3)
decreasing_by
all_goals simp_wf
all_goals try cases isBlock
all_goals omega

/-- Loop body of the Tuple case of mangleType: each field optionally emits
its name, then its type at the caller's explosion kind and uncurry level 0. -/
def mangleTupleFields (fields : List (Option Identifier × Ty)) (explosion : ExplosionKind) :
    MangleM (List Char) :=
  match fields with
  | [] => MangleM.pure []
  | (label, fieldTy) :: rest => do
    let labelChars ← (match label with
      | Option.some ident => mangleIdentifier ident
      | Option.none => MangleM.pure [])
    let tyChars ← mangleType fieldTy explosion 0
    let restChars ← mangleTupleFields rest explosion
    MangleM.pure (labelChars ++ tyChars ++ restChars)
termination_by (sizeOf fields, 0)

/-- Loop body of the BoundGeneric case of mangleType: every generic argument
is mangled at ExplosionKind::Minimal and uncurry level 0. -/
def mangleBoundGenericArgs (args : List Ty) : MangleM (List Char) :=
  match args with
  | [] => MangleM.pure []
  | arg :: rest => do
    let argChars ← mangleType arg ExplosionKind.minimal 0
    let restChars ← mangleBoundGenericArgs rest
    MangleM.pure (argChars ++ restChars)
termination_by (sizeOf args, 0)

/-- Mangler::mangleFunctionType: `b` for block function types independent of
the uncurry level, otherwise `f` for uncurryLevel above zero and `F` for
zero; the input is mangled at uncurry level 0 and the result at the level
decremented by one when it was positive (`uncurryLevel - 1` on Nat equals the
source's `uncurryLevel > 0 ? uncurryLevel - 1 : 0`). -/
def mangleFunctionType (input : Ty) (result : Ty) (isBlock : Bool)
    (explosion : ExplosionKind) (uncurryLevel : Nat) : MangleM (List Char) := do
  let inputChars ← mangleType input explosion 0
  let resultChars ← mangleType result explosion (uncurryLevel - 1)
  MangleM.pure
    ((if isBlock then 'b' else if 0 < uncurryLevel then 'f' else 'F') ::
      inputChars ++ resultChars)
termination_by (sizeOf input + sizeOf result + 1, 0)

end

/-- Mangler::mangleEntity: the declaration name (without its type) followed
by the declaration type at the requested explosion kind and uncurry level. -/
def mangleEntity (d : ValueDecl) (explosion : ExplosionKind) (uncurryLevel : Nat) :
    MangleM (List Char) := do
  let nameChars ← mangleDeclName d IncludeType.no
  let tyChars ← mangleDeclType d explosion uncurryLevel
  MangleM.pure (nameChars ++ tyChars)

/-- LinkEntity kinds (Linking.h), with the data each case of
LinkEntity::mangle consumes.  AnonymousFunction carries the identity of the
anonymous function expression it names (ignored by mangle). -/
inductive LinkEntityKind
  | anonymousFunction (funcId : Nat)
  | valueWitness (witness : ValueWitness) (ty : Ty)
  | valueWitnessTable (ty : Ty)
  | typeMangling (ty : Ty)
  | typeMetadata (ty : Ty) (isPattern : Bool) (isIndirect : Bool)
  | swiftMetaclassStub (decl : ValueDecl)
  | witnessTableOffset (decl : ValueDecl)
  | fieldOffset (decl : ValueDecl) (isIndirect : Bool)
  | bridgeToBlockConverter (ty : Ty)
  | destructor (decl : ValueDecl) (destructorKind : DestructorKind)
  | constructor (decl : ValueDecl) (constructorKind : ConstructorKind)
  | function (decl : ValueDecl)
  | other (decl : ValueDecl)
  | getter (decl : ValueDecl)
  | setter (decl : ValueDecl)
  | objcClass (decl : ValueDecl)
  | objcMetaclass (decl : ValueDecl)

/-- LinkEntity: the external mangle request, carrying the entity kind, the
explosion kind, the uncurrying level and the local-linkage flag. -/
structure LinkEntity where
  kind : LinkEntityKind
  explosionKind : ExplosionKind
  uncurryLevel : Nat
  isLocalLinkage : Bool

/-- Local-linkage marker emitted after the `_T` prefix for the
declaration-based cases. -/
def localMarker (entity : LinkEntity) : List Char :=
  if entity.isLocalLinkage then ['L'] else []

/-- LinkEntity::mangle, the per-kind switch, as a computation in a fresh
Mangler (the C++ constructs `Mangler mangler(buffer)` per call). -/
def LinkEntity.mangleM (entity : LinkEntity) : MangleM (List Char) :=
  match entity.kind with
  | LinkEntityKind.anonymousFunction _ =>
    MangleM.pure (("closure").data)
  | LinkEntityKind.valueWitness witness ty => do
    let witnessChars ← MangleM.ofOption (mangleValueWitness witness)
    let tyChars ← mangleType ty ExplosionKind.minimal 0
    MangleM.pure (("_Tw").data ++ witnessChars ++ tyChars)
  | LinkEntityKind.valueWitnessTable ty => do
    let tyChars ← mangleType ty ExplosionKind.minimal 0
    MangleM.pure (("_TWV").data ++ tyChars)
  | LinkEntityKind.typeMangling ty =>
    mangleType ty ExplosionKind.minimal 0
  | LinkEntityKind.typeMetadata ty isPattern isIndirect => do
    let tyChars ← mangleType ty ExplosionKind.minimal 0
    MangleM.pure
      (("_TM").data ++ (if isPattern then ['P'] else []) ++
        [mangleDirectness isIndirect] ++ tyChars)
  | LinkEntityKind.swiftMetaclassStub decl =>
    if decl.isClassDecl then do
      let nameChars ← mangleNominalType decl ExplosionKind.minimal
      MangleM.pure (("_TMm").data ++ nameChars)
    else MangleM.fail
  | LinkEntityKind.witnessTableOffset decl => do
    let entityChars ← mangleEntity decl entity.explosionKind entity.uncurryLevel
    MangleM.pure (("_TWo").data ++ entityChars)
  | LinkEntityKind.fieldOffset decl isIndirect => do
    let entityChars ← mangleEntity decl ExplosionKind.minimal 0
    MangleM.pure (("_TWv").data ++ [mangleDirectness isIndirect] ++ entityChars)
  | LinkEntityKind.bridgeToBlockConverter ty => do
    let tyChars ← mangleType ty ExplosionKind.minimal 0
    MangleM.pure (("_TTb").data ++ tyChars)
  | LinkEntityKind.destructor decl destructorKind =>
    if decl.isClassDecl then do
      let contextChars ← mangleDeclContext (DeclContext.nominalTypeDecl decl)
      MangleM.pure
        (("_T").data ++ localMarker entity ++ contextChars ++
          [match destructorKind with
           | DestructorKind.deallocating => 'D'
           | DestructorKind.destroying => 'd'])
    else MangleM.fail
  | LinkEntityKind.constructor decl constructorKind =>
    (match decl.kind with
     | ValueDeclKind.constructorDecl => do
       let contextChars ← mangleContextOf decl
       let tyChars ← mangleDeclType decl entity.explosionKind entity.uncurryLevel
       MangleM.pure
         (("_T").data ++ localMarker entity ++ contextChars ++
           [mangleConstructorKind constructorKind] ++ tyChars)
     | _ => MangleM.fail)
  | LinkEntityKind.function decl =>
    if decl.asmName ≠ "" then MangleM.pure decl.asmName.data
    else
      (match decl.clang with
       | Option.some (ClangDecl.declarator clangName) => MangleM.pure clangName.data
       | _ => do
         let entityChars ← mangleEntity decl entity.explosionKind entity.uncurryLevel
         MangleM.pure (("_T").data ++ localMarker entity ++ entityChars))
  | LinkEntityKind.other decl =>
    (match decl.clang with
     | Option.some (ClangDecl.declarator clangName) => MangleM.pure clangName.data
     | _ => do
       let entityChars ← mangleEntity decl entity.explosionKind entity.uncurryLevel
       MangleM.pure (("_T").data ++ localMarker entity ++ entityChars))
  | LinkEntityKind.getter decl => do
    let entityChars ← mangleEntity decl entity.explosionKind entity.uncurryLevel
    MangleM.pure (("_T").data ++ localMarker entity ++ entityChars ++ ['g'])
  | LinkEntityKind.setter decl => do
    let entityChars ← mangleEntity decl entity.explosionKind entity.uncurryLevel
    MangleM.pure (("_T").data ++ localMarker entity ++ entityChars ++ ['s'])
  | LinkEntityKind.objcClass decl =>
    MangleM.pure (("OBJC_CLASS_$_").data ++ decl.name.str.data)
  | LinkEntityKind.objcMetaclass decl =>
    MangleM.pure (("OBJC_METACLASS_$_").data ++ decl.name.str.data)

/-- LinkEntity::mangle: run the per-kind switch in a freshly constructed
Mangler and return the emitted bytes. -/
def LinkEntity.mangle (entity : LinkEntity) : Option (List Char) :=
  match entity.mangleM MangleState.initial with
  | Option.none => Option.none
  | Option.some (out, _) => Option.some out

/-- Strip every outer sugar/alias wrapper from a type, yielding its fully
resolved head (the chain of SUGARED_TYPE unwrappings performed by
mangleType). -/
def stripSugar : Ty → Ty
  | Ty.sugared underlying => stripSugar underlying
  | Ty.builtinFloat kind => Ty.builtinFloat kind
  | Ty.builtinInteger bitWidth => Ty.builtinInteger bitWidth
  | Ty.builtinRawPointer => Ty.builtinRawPointer
  | Ty.builtinOpaquePointer => Ty.builtinOpaquePointer
  | Ty.builtinObjectPointer => Ty.builtinObjectPointer
  | Ty.builtinObjCPointer => Ty.builtinObjCPointer
  | Ty.metaType instanceTy => Ty.metaType instanceTy
  | Ty.lvalue objectTy => Ty.lvalue objectTy
  | Ty.tuple fields => Ty.tuple fields
  | Ty.nominal decl => Ty.nominal decl
  | Ty.boundGeneric decl args => Ty.boundGeneric decl args
  | Ty.polymorphicFunction genericParams input result isBlock =>
    Ty.polymorphicFunction genericParams input result isBlock
  | Ty.archetype id => Ty.archetype id
  | Ty.function input result isBlock => Ty.function input result isBlock
  | Ty.array size baseTy => Ty.array size baseTy
  | Ty.protocolComposition protocols => Ty.protocolComposition protocols

/-- Whether a type is a sugar/alias wrapper. -/
def Ty.isSugared : Ty → Bool
  | Ty.sugared _ => true
  | _ => false

/-- Token-boundary check for the head of an emission: nonempty, and the
first character is neither a decimal digit nor an underscore. -/
def startOk (l : List Char) : Bool :=
  match l with
  | [] => false
  | c :: _ => !c.isDigit && !(c = '_')

/-- Token-boundary check for the tail of an emission: nonempty, and the last
character is not a decimal digit. -/
def lastNotDigit (l : List Char) : Bool :=
  match l.getLast? with
  | Option.none => false
  | Option.some c => !c.isDigit

/-- An identifier whose spelling is nonempty and does not end with a decimal
digit. -/
def identOk (ident : Identifier) : Bool := lastNotDigit ident.str.data

mutual

/-- Every identifier reachable in a type (declaration names, module names,
tuple labels, names inside generic parameter lists) is nonempty and does not
end with a decimal digit. -/
def namesOkTy : Ty → Bool
  | Ty.builtinFloat _ => true
  | Ty.builtinInteger _ => true
  | Ty.builtinRawPointer => true
  | Ty.builtinOpaquePointer => true
  | Ty.builtinObjectPointer => true
  | Ty.builtinObjCPointer => true
  | Ty.sugared underlying => namesOkTy underlying
  | Ty.metaType instanceTy => namesOkTy instanceTy
  | Ty.lvalue objectTy => namesOkTy objectTy
  | Ty.tuple fields => namesOkTupleFields fields
  | Ty.nominal decl => namesOkDecl decl
  | Ty.boundGeneric decl args => namesOkDecl decl && namesOkTyList args
  | Ty.polymorphicFunction genericParams input result _ =>
    namesOkGPL genericParams && namesOkTy input && namesOkTy result
  | Ty.archetype _ => true
  | Ty.function input result _ => namesOkTy input && namesOkTy result
  | Ty.array _ baseTy => namesOkTy baseTy
  | Ty.protocolComposition protocols => namesOkTyList protocols
termination_by t => (sizeOf t, 0)

def namesOkTyList : List Ty → Bool
  | [] => true
  | t :: rest => namesOkTy t && namesOkTyList rest
termination_by l => (sizeOf l, 0)

def namesOkTupleFields : List (Option Identifier × Ty) → Bool
  | [] => true
  | (label, t) :: rest =>
    (match label with
     | Option.some ident => identOk ident
     | Option.none => true) && namesOkTy t && namesOkTupleFields rest
termination_by l => (sizeOf l, 0)

def namesOkDecl : ValueDecl → Bool
  | ValueDecl.mk name kind context contextGenericParams ty _ _ _ =>
    identOk name && namesOkKind kind && namesOkDC context &&
      namesOkOptGPL contextGenericParams && namesOkTy ty
termination_by d => (sizeOf d, 1)

def namesOkKind : ValueDeclKind → Bool
  | ValueDeclKind.funcDecl (AccessorRef.getterOf target) => namesOkDecl target
  | ValueDeclKind.funcDecl (AccessorRef.setterOf target) => namesOkDecl target
  | _ => true
termination_by k => (sizeOf k, 0)

def namesOkDC : DeclContext → Bool
  | DeclContext.translationUnit mname _ mparent =>
    identOk mname && (match mparent with
      | Option.some p => namesOkDC p
      | Option.none => true)
  | DeclContext.nominalTypeDecl decl => namesOkDecl decl
  | DeclContext.extensionDecl extendedCanonicalTy => namesOkTy extendedCanonicalTy
  | DeclContext.capturingExpr (Option.some fd) => namesOkDecl fd
  | DeclContext.capturingExpr Option.none => true
  | DeclContext.constructorDecl decl => namesOkDecl decl
  | DeclContext.destructorDecl decl => namesOkDecl decl
  | DeclContext.builtinModule => true
  | DeclContext.clangModule => true
  | DeclContext.topLevelCodeDecl => true
termination_by c => (sizeOf c, 0)

def namesOkOptGPL : Option GenericParamList → Bool
  | Option.none => true
  | Option.some gp => namesOkGPL gp
termination_by o => (sizeOf o, 0)

def namesOkGPL : GenericParamList → Bool
  | GenericParamList.mk archetypes outerParameters =>
    namesOkArchList archetypes && namesOkOptGPL outerParameters
termination_by g => (sizeOf g, 0)

def namesOkArchList : List Archetype → Bool
  | [] => true
  | Archetype.mk _ conformsTo :: rest =>
    namesOkDeclList conformsTo && namesOkArchList rest
termination_by l => (sizeOf l, 0)

def namesOkDeclList : List ValueDecl → Bool
  | [] => true
  | d :: rest => namesOkDecl d && namesOkDeclList rest
termination_by l => (sizeOf l, 0)

end

/-- Sample root module named `m`, with module id 0. -/
def moduleM : DeclContext :=
  DeclContext.translationUnit { str := "m", isOperator := false } 0 Option.none

/-- Sample struct declaration with the given name and declared-type id,
declared directly in module `m`. -/
def sampleStruct (nm : String) (declaredTypeId : Nat) : ValueDecl :=
  ValueDecl.mk { str := nm, isOperator := false }
    (ValueDeclKind.nominalTypeDecl NominalKind.structKind declaredTypeId)
    moduleM Option.none Ty.builtinRawPointer Option.none ("") false

/-- Sample tuple type holding one value of struct A and one of struct B,
both declared in module m: the module identity occurs twice in one
request. -/
def sampleTupleAB : Ty :=
  Ty.tuple
    [(Option.none, Ty.nominal (sampleStruct ("A") 1)),
     (Option.none, Ty.nominal (sampleStruct ("B") 2))]

/-- Sample variable declaration named `v` in a Clang module, with the given
asm-name attribute. -/
def sampleVar (asmName : String) : ValueDecl :=
  ValueDecl.mk { str := "v", isOperator := false } ValueDeclKind.varDecl
    DeclContext.clangModule Option.none Ty.builtinRawPointer Option.none asmName false

/-- Sample function declaration named `f` in a Clang module, with the given
asm-name attribute and attached Clang declaration. -/
def sampleFunc (asmName : String) (clang : Option ClangDecl) : ValueDecl :=
  ValueDecl.mk { str := "f", isOperator := false }
    (ValueDeclKind.funcDecl AccessorRef.notAccessor)
    DeclContext.clangModule Option.none Ty.builtinRawPointer clang asmName false

/-- Sample generic parameter list binding one archetype (id 7) with no
conformance requirements and no outer parameters. -/
def sampleGenericParams : GenericParamList :=
  GenericParamList.mk [Archetype.mk 7 []] Option.none

@[simp] theorem MangleM.run_bind {α β : Type} (m : MangleM α) (f : α → MangleM β)
    (s : MangleState) :
    (m >>= f) s = match m s with
      | Option.none => Option.none
      | Option.some (a, s1) => f a s1 := rfl

@[simp] theorem MangleM.run_pure {α : Type} (a : α) (s : MangleState) :
    (Pure.pure a : MangleM α) s = Option.some (a, s) := rfl

/-- The explosion-kind parameter of mangleNominalType is never consulted. -/
theorem mangleNominalType_explosion (d : ValueDecl) (e e' : ExplosionKind) :
    mangleNominalType d e = mangleNominalType d e' := by
  simp only [mangleNominalType]

/-- No production of the type encoder consults the explosion kind: the
emitted bytes and the state evolution of mangleType are identical for any
two explosion kinds (joint strong induction with the tuple-field walker). -/
theorem mangleType_explosion_all :
    ∀ n : Nat,
      (∀ t : Ty, sizeOf t ≤ n → ∀ e e' u, mangleType t e u = mangleType t e' u) ∧
      (∀ fs : List (Option Identifier × Ty), sizeOf fs ≤ n →
        ∀ e e', mangleTupleFields fs e = mangleTupleFields fs e') := by
  intro n
  induction n with
  | zero =>
    constructor
    · intro t ht; exfalso; cases t <;> simp at ht
    · intro fs hfs; exfalso
      cases fs with
      | nil => simp at hfs
      | cons a b => simp at hfs
  | succ n ih =>
    constructor
    · intro t ht e e' u
      cases t with
      | builtinFloat fpKind => cases fpKind <;> simp only [mangleType]
      | builtinInteger bitWidth => simp only [mangleType]
      | builtinRawPointer => simp only [mangleType]
      | builtinOpaquePointer => simp only [mangleType]
      | builtinObjectPointer => simp only [mangleType]
      | builtinObjCPointer => simp only [mangleType]
      | sugared underlying =>
        have hu : sizeOf underlying ≤ n := by simp at ht; omega
        simp only [mangleType]
        exact (ih.1) underlying hu e e' u
      | metaType instanceTy => simp only [mangleType]
      | lvalue objectTy => simp only [mangleType]
      | tuple fields =>
        have hf : sizeOf fields ≤ n := by simp at ht; omega
        simp only [mangleType, (ih.2) fields hf e e']
      | nominal decl =>
        simp only [mangleType]
        exact mangleNominalType_explosion decl e e'
      | boundGeneric decl args =>
        simp only [mangleType, mangleNominalType_explosion decl e e']
      | polymorphicFunction genericParams input result isBlock =>
        have hi : sizeOf input ≤ n := by simp at ht; omega
        have hr : sizeOf result ≤ n := by simp at ht; omega
        have hFT : mangleFunctionType input result isBlock e u =
            mangleFunctionType input result isBlock e' u := by
          simp only [mangleFunctionType, (ih.1) input hi e e' 0,
            (ih.1) result hr e e' (u - 1)]
        simp only [mangleType, manglePolymorphicType, hFT]
      | archetype id => simp only [mangleType]
      | function input result isBlock =>
        have hi : sizeOf input ≤ n := by simp at ht; omega
        have hr : sizeOf result ≤ n := by simp at ht; omega
        simp only [mangleType, mangleFunctionType, (ih.1) input hi e e' 0,
          (ih.1) result hr e e' (u - 1)]
      | array size baseTy => simp only [mangleType]
      | protocolComposition protocols => simp only [mangleType]
    · intro fs hfs e e'
      cases fs with
      | nil => simp only [mangleTupleFields]
      | cons field rest =>
        cases field with
        | mk label fieldTy =>
          have hT : sizeOf fieldTy ≤ n := by simp at hfs; omega
          have hR : sizeOf rest ≤ n := by simp at hfs; omega
          cases label <;>
            simp only [mangleTupleFields, (ih.1) fieldTy hT e e' 0,
              (ih.2) rest hR e e']

/-- The emitted bytes of mangleType never depend on the explosion kind. -/
theorem mangleType_explosion (t : Ty) (e e' : ExplosionKind) (u : Nat) :
    mangleType t e u = mangleType t e' u :=
  (mangleType_explosion_all (sizeOf t)).1 t le_rfl e e' u

/-- C5: substructure canonicalization.  For tuples, bound-generic
applications, metatypes, lvalues and fixed-size arrays, the emitted bytes
and state evolution are identical at every caller-supplied explosion kind
and uncurry level to those at (Minimal, 0): nested component types (tuple
fields, generic arguments, metatype instance types, lvalue object types,
array element types) are encoded independently of the caller-supplied
parameters, which only ever select the calling convention of a top-level
function signature. -/
theorem substructure_canonicalization :
    (∀ (fields : List (Option Identifier × Ty)) (e : ExplosionKind) (u : Nat),
      mangleType (Ty.tuple fields) e u =
        mangleType (Ty.tuple fields) ExplosionKind.minimal 0) ∧
    (∀ (decl : ValueDecl) (args : List Ty) (e : ExplosionKind) (u : Nat),
      mangleType (Ty.boundGeneric decl args) e u =
        mangleType (Ty.boundGeneric decl args) ExplosionKind.minimal 0) ∧
    (∀ (instanceTy : Ty) (e : ExplosionKind) (u : Nat),
      mangleType (Ty.metaType instanceTy) e u =
        mangleType (Ty.metaType instanceTy) ExplosionKind.minimal 0) ∧
    (∀ (objectTy : Ty) (e : ExplosionKind) (u : Nat),
      mangleType (Ty.lvalue objectTy) e u =
        mangleType (Ty.lvalue objectTy) ExplosionKind.minimal 0) ∧
    (∀ (size : Nat) (baseTy : Ty) (e : ExplosionKind) (u : Nat),
      mangleType (Ty.array size baseTy) e u =
        mangleType (Ty.array size baseTy) ExplosionKind.minimal 0) := by
  refine ⟨?_, ?_, ?_, ?_, ?_⟩
  · intro fields e u
    rw [mangleType_explosion (Ty.tuple fields) e ExplosionKind.minimal u]
    simp only [mangleType]
  · intro decl args e u
    rw [mangleType_explosion (Ty.boundGeneric decl args) e ExplosionKind.minimal u]
    simp only [mangleType]
  · intro instanceTy e u
    simp only [mangleType]
  · intro objectTy e u
    simp only [mangleType]
  · intro size baseTy e u
    simp only [mangleType]

/-- Helper for C7: mangling a type equals mangling its outer-desugared form,
by strong induction on size (only the sugar case recurses). -/
theorem alias_transparency_all :
    ∀ n : Nat, ∀ t : Ty, sizeOf t ≤ n → ∀ (e : ExplosionKind) (u : Nat),
      mangleType t e u = mangleType (stripSugar t) e u ∧
        (stripSugar t).isSugared = false := by
  intro n
  induction n with
  | zero => intro t ht; exfalso; cases t <;> simp at ht
  | succ n ih =>
    intro t ht e u
    cases t with
    | sugared underlying =>
      have hu : sizeOf underlying ≤ n := by simp at ht; omega
      constructor
      · simp only [mangleType, stripSugar]
        exact (ih underlying hu e u).1
      · simp only [stripSugar]
        exact (ih underlying hu e u).2
    | builtinFloat fpKind => exact ⟨by simp only [stripSugar], by simp [stripSugar, Ty.isSugared]⟩
    | builtinInteger bitWidth => exact ⟨by simp only [stripSugar], by simp [stripSugar, Ty.isSugared]⟩
    | builtinRawPointer => exact ⟨by simp only [stripSugar], by simp [stripSugar, Ty.isSugared]⟩
    | builtinOpaquePointer => exact ⟨by simp only [stripSugar], by simp [stripSugar, Ty.isSugared]⟩
    | builtinObjectPointer => exact ⟨by simp only [stripSugar], by simp [stripSugar, Ty.isSugared]⟩
    | builtinObjCPointer => exact ⟨by simp only [stripSugar], by simp [stripSugar, Ty.isSugared]⟩
    | metaType instanceTy => exact ⟨by simp only [stripSugar], by simp [stripSugar, Ty.isSugared]⟩
    | lvalue objectTy => exact ⟨by simp only [stripSugar], by simp [stripSugar, Ty.isSugared]⟩
    | tuple fields => exact ⟨by simp only [stripSugar], by simp [stripSugar, Ty.isSugared]⟩
    | nominal decl => exact ⟨by simp only [stripSugar], by simp [stripSugar, Ty.isSugared]⟩
    | boundGeneric decl args => exact ⟨by simp only [stripSugar], by simp [stripSugar, Ty.isSugared]⟩
    | polymorphicFunction genericParams input result isBlock =>
      exact ⟨by simp only [stripSugar], by simp [stripSugar, Ty.isSugared]⟩
    | archetype id => exact ⟨by simp only [stripSugar], by simp [stripSugar, Ty.isSugared]⟩
    | function input result isBlock =>
      exact ⟨by simp only [stripSugar], by simp [stripSugar, Ty.isSugared]⟩
    | array size baseTy => exact ⟨by simp only [stripSugar], by simp [stripSugar, Ty.isSugared]⟩
    | protocolComposition protocols =>
      exact ⟨by simp only [stripSugar], by simp [stripSugar, Ty.isSugared]⟩

/-- C7: alias transparency.  For every type, every explosion kind and every
uncurry level, mangling the type through any chain of sugar/alias wrappers
produces exactly the same bytes (and state evolution) as mangling its fully
resolved form, the head of which is no longer sugared. -/
theorem alias_transparency :
    ∀ (t : Ty) (e : ExplosionKind) (u : Nat),
      mangleType t e u = mangleType (stripSugar t) e u ∧
        (stripSugar t).isSugared = false :=
  fun t e u => alias_transparency_all (sizeOf t) t (Nat.le_refl _) e u

/-- C10: every LinkEntity of kind AnonymousFunction mangles to exactly the
bytes `closure`: no `_T` prefix, no local-linkage marker, and no dependence
on which anonymous function is named, on the explosion kind, on the uncurry
level, or on the local-linkage flag. -/
theorem anonymousFunction_mangles_to_closure :
    ∀ (funcId : Nat) (e : ExplosionKind) (u : Nat) (l : Bool),
      LinkEntity.mangle
        { kind := LinkEntityKind.anonymousFunction funcId, explosionKind := e,
          uncurryLevel := u, isLocalLinkage := l } =
        Option.some (("closure").data) := by
  intro funcId e u l
  rfl

/-- C1 evaluation at the failing input: two distinct AnonymousFunction
entities (ids 0 and 1) both mangle to the identical byte sequence `closure`,
so distinct externally-visible entities do not receive distinct manglings. -/
theorem anonymousFunctions_collide :
    LinkEntity.mangle
        { kind := LinkEntityKind.anonymousFunction 0,
          explosionKind := ExplosionKind.minimal, uncurryLevel := 0,
          isLocalLinkage := false } = Option.some (("closure").data) ∧
    LinkEntity.mangle
        { kind := LinkEntityKind.anonymousFunction 1,
          explosionKind := ExplosionKind.minimal, uncurryLevel := 0,
          isLocalLinkage := false } = Option.some (("closure").data) ∧
    LinkEntityKind.anonymousFunction 0 ≠ LinkEntityKind.anonymousFunction 1 := by
  refine ⟨rfl, rfl, ?_⟩
  intro h
  injection h with h1
  exact absurd h1 (by decide)

/-- C4: archetype reference encoding.  For every archetype whose recorded
binding is present in the archetype map and whose recorded depth does not
exceed the current ArchetypesDepth, the emitted token encodes the depth
delta (current depth minus recorded depth), not an absolute depth: delta 0
emits plain `Q` followed by the index channel, and delta above 0 emits `Qd`
followed by the delta channel carrying delta − 1; both channels use the
compact index grammar in which value 0 emits nothing before the `_`
terminator and value v emits v − 1 in decimal before the terminator.  The
state is unchanged. -/
theorem archetype_reference_encoding :
    ∀ (id : Nat) (e : ExplosionKind) (u : Nat) (st : MangleState) (info : ArchetypeInfo),
      findArchetype st.archetypes id = Option.some info →
      info.depth ≤ st.archetypesDepth →
      mangleType (Ty.archetype id) e u st =
        Option.some
          ('Q' ::
            ((if st.archetypesDepth - info.depth = 0 then []
              else 'd' ::
                ((if st.archetypesDepth - info.depth - 1 = 0 then []
                  else natChars (st.archetypesDepth - info.depth - 1 - 1)) ++ ['_'])) ++
             ((if info.index = 0 then [] else natChars (info.index - 1)) ++ ['_'])),
          st) := by
  intro id e u st info hfind hle
  simp only [mangleType, MangleM.run_bind, MangleM.get, hfind, indexChars]
  rw [if_neg (by omega)]
  simp [MangleM.pure]

/-- C6: function-type markers.  Whenever the function-type production
succeeds, the foreign-block flag decides the marker first (`b`, independent
of the uncurry level); otherwise uncurry level 0 yields `F` and a positive
uncurry level yields `f`.  The input type is recursed into at uncurry level
0, the result type at the level decremented by one (Nat subtraction: 0 stays
0). -/
theorem function_type_markers :
    ∀ (input result : Ty) (isBlock : Bool) (e : ExplosionKind) (u : Nat)
      (st : MangleState) (o : List Char) (st' : MangleState),
      mangleType (Ty.function input result isBlock) e u st = Option.some (o, st') →
      ∃ inputChars st1 resultChars,
        mangleType input e 0 st = Option.some (inputChars, st1) ∧
        mangleType result e (u - 1) st1 = Option.some (resultChars, st') ∧
        o = (if isBlock then 'b' else if 0 < u then 'f' else 'F') ::
          inputChars ++ resultChars := by
  intro input result isBlock e u st o st' h
  simp only [mangleType, mangleFunctionType, MangleM.run_bind] at h
  cases hi : mangleType input e 0 st with
  | none => rw [hi] at h; exact absurd h (by simp)
  | some p =>
    cases p with
    | mk inputChars st1 =>
      simp only [hi] at h
      cases hr : mangleType result e (u - 1) st1 with
      | none => rw [hr] at h; exact absurd h (by simp)
      | some q =>
        cases q with
        | mk resultChars st2 =>
          simp only [hr] at h
          simp only [MangleM.pure, Option.some.injEq, Prod.mk.injEq] at h
          obtain ⟨ho, hst⟩ := h
          subst hst
          exact ⟨inputChars, st1, resultChars, rfl, hr, ho.symm⟩

/-- Helper: any pipeline that reads the state, runs two stages, and then
overwrites archetypesDepth with the initially read value restores the depth
on success. -/
theorem depth_restore_pipeline (m1 m2 : MangleM (List Char)) (st : MangleState)
    (out : List Char) (st' : MangleState)
    (h : (do
        let st0 ← MangleM.get
        let _ ← m1
        let r ← m2
        MangleM.modify (fun s => { s with archetypesDepth := st0.archetypesDepth })
        MangleM.pure r) st = Option.some (out, st')) :
    st'.archetypesDepth = st.archetypesDepth := by
  simp only [MangleM.run_bind, MangleM.get] at h
  cases h1 : m1 st with
  | none => rw [h1] at h; exact absurd h (by simp)
  | some p =>
    cases p with
    | mk a st1 =>
      simp only [h1] at h
      cases h2 : m2 st1 with
      | none => rw [h2] at h; exact absurd h (by simp)
      | some q =>
        cases q with
        | mk r st2 =>
          simp only [h2] at h
          simp only [MangleM.modify, MangleM.pure, Option.some.injEq, Prod.mk.injEq] at h
          obtain ⟨-, hst⟩ := h
          subst hst
          rfl

/-- C9 (amended): only the depth counter of the generic binding state is
saved before and restored after the descents into nested generic scopes
(manglePolymorphicType and mangleDeclType): whenever either returns, the
final ArchetypesDepth equals the initial one.  (The archetype map is not
restored; see the accompanying counterexample.) -/
theorem binding_depth_restored :
    (∀ (gp : GenericParamList) (input result : Ty) (isBlock : Bool)
        (e : ExplosionKind) (u : Nat) (st : MangleState) (out : List Char)
        (st' : MangleState),
      manglePolymorphicType gp input result isBlock e u st = Option.some (out, st') →
      st'.archetypesDepth = st.archetypesDepth) ∧
    (∀ (d : ValueDecl) (e : ExplosionKind) (u : Nat) (st : MangleState)
        (out : List Char) (st' : MangleState),
      mangleDeclType d e u st = Option.some (out, st') →
      st'.archetypesDepth = st.archetypesDepth) := by
  constructor
  · intro gp input result isBlock e u st out st' h
    simp only [manglePolymorphicType, MangleM.run_bind, MangleM.get] at h
    cases hb : bindGenericParameters gp true st with
    | none => rw [hb] at h; exact absurd h (by simp)
    | some p =>
      cases p with
      | mk paramChars st1 =>
        simp only [hb] at h
        cases hf : mangleFunctionType input result isBlock e u st1 with
        | none => rw [hf] at h; exact absurd h (by simp)
        | some q =>
          cases q with
          | mk fnChars st2 =>
            simp only [hf] at h
            simp only [MangleM.modify, MangleM.pure, Option.some.injEq,
              Prod.mk.injEq] at h
            obtain ⟨-, hst⟩ := h
            subst hst
            rfl
  · intro d e u st out st' h
    rw [mangleDeclType.eq_def] at h
    cases d with
    | mk name kind context contextGenericParams ty clang asmName isObjC =>
      exact depth_restore_pipeline _ _ st out st' h

/-- Helper: appending a key absent from the table gives it the next
sequential index, the current table size. -/
theorem substIndex_append_self :
    ∀ (l : List SubstKey) (k : SubstKey), substIndex l k = Option.none →
      substIndex (l ++ [k]) k = Option.some l.length := by
  intro l
  induction l with
  | nil =>
    intro k _
    simp [substIndex]
  | cons a rest ih =>
    intro k h
    simp only [substIndex] at h
    by_cases hak : a = k
    · rw [if_pos hak] at h; exact absurd h (by simp)
    · rw [if_neg hak] at h
      have hrest : substIndex rest k = Option.none := by
        cases hr : substIndex rest k with
        | none => rfl
        | some i => rw [hr] at h; exact absurd h (by simp)
      rw [List.cons_append]
      simp only [substIndex]
      rw [if_neg hak, ih k hrest]
      simp

/-- C3 (amended): substitution behaviour.  (a) A key already in the table
emits exactly `S` + (index − 1 in decimal, omitted when the index is 0) +
`_`, leaving the state unchanged; (b) an absent key emits nothing and
reports failure; (c) recording an absent key appends it with the next
sequential index (the current table size); (d) in mangleNominalType, a
first occurrence is emitted as its full spelling (specifier letter plus
declaration name) and the key is recorded only after that spelling is
complete, in the post-spelling state. -/
theorem substitution_behaviour :
    (∀ (st : MangleState) (key : SubstKey) (index : Nat),
      substIndex st.substitutions key = Option.some index →
      tryMangleSubstitution key st =
        Option.some (Option.some
          ('S' :: ((if index = 0 then [] else natChars (index - 1)) ++ ['_'])), st)) ∧
    (∀ (st : MangleState) (key : SubstKey),
      substIndex st.substitutions key = Option.none →
      tryMangleSubstitution key st = Option.some (Option.none, st)) ∧
    (∀ (st : MangleState) (key : SubstKey),
      substIndex st.substitutions key = Option.none →
      addSubstitution key st =
          Option.some ((), { st with substitutions := st.substitutions ++ [key] }) ∧
        substIndex (st.substitutions ++ [key]) key =
          Option.some st.substitutions.length) ∧
    (∀ (d : ValueDecl) (nk : NominalKind) (tid : Nat) (e : ExplosionKind)
        (st : MangleState) (o : List Char) (st1 : MangleState),
      d.kind = ValueDeclKind.nominalTypeDecl nk tid →
      tryMangleStandardSubstitution d = Option.none →
      substIndex st.substitutions (SubstKey.typeKey tid) = Option.none →
      mangleDeclName d IncludeType.no st = Option.some (o, st1) →
      mangleNominalType d e st =
        Option.some (getSpecifierForNominalType nk :: o,
          if (substIndex st1.substitutions (SubstKey.typeKey tid)).isSome then st1
          else { st1 with
            substitutions := st1.substitutions ++ [SubstKey.typeKey tid] })) := by
  refine ⟨?_, ?_, ?_, ?_⟩
  · intro st key index h
    simp [tryMangleSubstitution, MangleM.get, MangleM.pure, h]
  · intro st key h
    simp [tryMangleSubstitution, MangleM.get, MangleM.pure, h]
  · intro st key h
    constructor
    · simp [addSubstitution, MangleM.modify, h]
    · exact substIndex_append_self st.substitutions key h
  · intro d nk tid e st o st1 hkind hstd hidx hname
    rw [mangleNominalType.eq_def, hkind, hstd]
    simp only [MangleM.run_bind]
    have htry : tryMangleSubstitution (SubstKey.typeKey tid) st =
        Option.some (Option.none, st) := by
      simp [tryMangleSubstitution, MangleM.get, MangleM.pure, hidx]
    rw [htry]
    simp only [MangleM.run_bind, hname, addSubstitution, MangleM.modify, MangleM.pure]

/-- C3 counterexample: within one request, the module `m` (a one-character
name) is first spelled as `1m` (2 bytes); its back-reference at index 0 is
`S_` (also 2 bytes), which is not strictly shorter than re-spelling the
identity. -/
theorem module_backreference_not_shorter :
    mangleDeclContext moduleM MangleState.initial =
      Option.some (('1' :: 'm' :: []),
        { substitutions := [SubstKey.moduleKey 0], archetypes := [],
          archetypesDepth := 0 }) ∧
    mangleDeclContext moduleM
        { substitutions := [SubstKey.moduleKey 0], archetypes := [],
          archetypesDepth := 0 } =
      Option.some (('S' :: '_' :: []),
        { substitutions := [SubstKey.moduleKey 0], archetypes := [],
          archetypesDepth := 0 }) ∧
    ¬(('S' :: '_' :: []).length < ('1' :: 'm' :: []).length) := by
  refine ⟨?_, ?_, by decide⟩
  · simp [mangleDeclContext, moduleM, isSwiftTranslationUnit, tryMangleSubstitution,
      substIndex, mangleIdentifier, addSubstitution, natChars, MangleM.pure,
      MangleM.get, MangleM.modify, MangleM.ofOption, MangleState.initial] <;> decide
  · simp [mangleDeclContext, moduleM, isSwiftTranslationUnit, tryMangleSubstitution,
      substIndex, mangleIdentifier, addSubstitution, natChars, MangleM.pure,
      MangleM.get, MangleM.modify, MangleM.ofOption]

/-- Witness for C3: the parts of substitution_behaviour at concrete inputs. -/
theorem substitution_behaviour_witness :
    (tryMangleSubstitution (SubstKey.typeKey 5)
        { substitutions := [SubstKey.typeKey 5], archetypes := [],
          archetypesDepth := 0 } =
      Option.some (Option.some
        ('S' :: ((if 0 = 0 then [] else natChars (0 - 1)) ++ ['_'])),
        { substitutions := [SubstKey.typeKey 5], archetypes := [],
          archetypesDepth := 0 })) ∧
    (addSubstitution (SubstKey.moduleKey 0) MangleState.initial =
        Option.some ((),
          { MangleState.initial with
            substitutions := MangleState.initial.substitutions ++
              [SubstKey.moduleKey 0] }) ∧
      substIndex (MangleState.initial.substitutions ++ [SubstKey.moduleKey 0])
          (SubstKey.moduleKey 0) =
        Option.some MangleState.initial.substitutions.length) ∧
    (mangleNominalType (sampleStruct ("A") 1) ExplosionKind.minimal
        MangleState.initial =
      Option.some
        (getSpecifierForNominalType NominalKind.structKind ::
          ('1' :: 'm' :: '1' :: 'A' :: []),
          if (substIndex [SubstKey.moduleKey 0] (SubstKey.typeKey 1)).isSome then
            { substitutions := [SubstKey.moduleKey 0], archetypes := [],
              archetypesDepth := 0 }
          else
            { substitutions := [SubstKey.moduleKey 0] ++ [SubstKey.typeKey 1],
              archetypes := [], archetypesDepth := 0 })) := by
  refine ⟨?_, ?_, ?_⟩
  · exact substitution_behaviour.1 _ (SubstKey.typeKey 5) 0 (by rfl)
  · exact substitution_behaviour.2.2.1 MangleState.initial (SubstKey.moduleKey 0) (by rfl)
  · exact substitution_behaviour.2.2.2 (sampleStruct ("A") 1) NominalKind.structKind 1
      ExplosionKind.minimal MangleState.initial ('1' :: 'm' :: '1' :: 'A' :: [])
      { substitutions := [SubstKey.moduleKey 0], archetypes := [], archetypesDepth := 0 }
      (by rfl) (by rfl) (by rfl)
      (by simp [mangleDeclName, mangleContextOf, mangleDeclContext, mangleIdentifier,
        tryMangleSubstitution, addSubstitution, substIndex, isSwiftTranslationUnit,
        natChars, MangleM.pure, MangleM.get, MangleM.modify, MangleM.ofOption,
        MangleState.initial, moduleM, sampleStruct, ValueDecl.name, ValueDecl.kind,
        ValueDecl.context] <;> decide)

/-- Witness for C4: an archetype recorded at depth 1, index 2, referenced at
current depth 3, emits `Qd0_1_`. -/
theorem archetype_reference_encoding_witness :
    findArchetype ([(7, { depth := 1, index := 2 })]) 7 =
      Option.some { depth := 1, index := 2 } ∧
    mangleType (Ty.archetype 7) ExplosionKind.minimal 0
        { substitutions := [], archetypes := [(7, { depth := 1, index := 2 })],
          archetypesDepth := 3 } =
      Option.some (("Qd0_1_").data,
        { substitutions := [], archetypes := [(7, { depth := 1, index := 2 })],
          archetypesDepth := 3 }) := by
  constructor
  · rfl
  · have h := archetype_reference_encoding 7 ExplosionKind.minimal 0
      { substitutions := [], archetypes := [(7, { depth := 1, index := 2 })],
        archetypesDepth := 3 }
      { depth := 1, index := 2 } (by rfl) (by decide)
    exact h.trans (by decide)

/-- Witness for C6: applying function_type_markers to the concrete signature
Bp to Bu at uncurry level 1 (marker `f`, result recursed at level 0). -/
theorem function_type_markers_witness :
    ∃ inputChars st1 resultChars,
      mangleType Ty.builtinRawPointer ExplosionKind.minimal 0 MangleState.initial =
        Option.some (inputChars, st1) ∧
      mangleType Ty.builtinOpaquePointer ExplosionKind.minimal (1 - 1) st1 =
        Option.some (resultChars, MangleState.initial) ∧
      ("fBpBu").data =
        (if false then 'b' else if 0 < 1 then 'f' else 'F') ::
          inputChars ++ resultChars := by
  apply function_type_markers Ty.builtinRawPointer Ty.builtinOpaquePointer false
    ExplosionKind.minimal 1 MangleState.initial (("fBpBu").data) MangleState.initial
  simp [mangleType, mangleFunctionType, MangleM.pure]

/-- C8 (amended): bypass semantics.  For Kind::Function entities, a nonempty
asm-name override is emitted verbatim, taking priority over everything else;
with an empty override, a declaration whose attached Clang declaration is a
declarator emits its foreign name verbatim; for Kind::Other entities the
declarator bypass applies unconditionally.  In each case the grammar is
skipped entirely. -/
theorem bypass_semantics :
    (∀ (d : ValueDecl) (e : ExplosionKind) (u : Nat) (l : Bool),
      d.asmName ≠ "" →
      LinkEntity.mangle
          { kind := LinkEntityKind.function d, explosionKind := e,
            uncurryLevel := u, isLocalLinkage := l } =
        Option.some d.asmName.data) ∧
    (∀ (d : ValueDecl) (e : ExplosionKind) (u : Nat) (l : Bool)
        (clangName : String),
      d.asmName = "" →
      d.clang = Option.some (ClangDecl.declarator clangName) →
      LinkEntity.mangle
          { kind := LinkEntityKind.function d, explosionKind := e,
            uncurryLevel := u, isLocalLinkage := l } =
        Option.some clangName.data) ∧
    (∀ (d : ValueDecl) (e : ExplosionKind) (u : Nat) (l : Bool)
        (clangName : String),
      d.clang = Option.some (ClangDecl.declarator clangName) →
      LinkEntity.mangle
          { kind := LinkEntityKind.other d, explosionKind := e,
            uncurryLevel := u, isLocalLinkage := l } =
        Option.some clangName.data) := by
  refine ⟨?_, ?_, ?_⟩
  · intro d e u l h
    simp [LinkEntity.mangle, LinkEntity.mangleM, h, MangleM.pure]
  · intro d e u l clangName h1 h2
    simp [LinkEntity.mangle, LinkEntity.mangleM, h1, h2, MangleM.pure]
  · intro d e u l clangName h
    simp [LinkEntity.mangle, LinkEntity.mangleM, h, MangleM.pure]

/-- C8 counterexample: the bypasses are not universal.  A Getter entity
whose declaration carries the override `foo_impl` is mangled through the
grammar (output `_T1vBpg`); a Function entity carrying both an override and
a foreign declarator name emits the override, not the foreign name; and a
Function entity imported from a foreign interface whose Clang declaration is
not a declarator (an Objective-C method) is mangled through the grammar
rather than emitting its foreign name. -/
theorem bypass_counterexample :
    (LinkEntity.mangle
        { kind := LinkEntityKind.getter (sampleVar ("foo_impl")),
          explosionKind := ExplosionKind.minimal, uncurryLevel := 0,
          isLocalLinkage := false } = Option.some (("_T1vBpg").data) ∧
      ("_T1vBpg").data ≠ ("foo_impl").data) ∧
    (LinkEntity.mangle
        { kind := LinkEntityKind.function
            (sampleFunc ("foo_impl") (Option.some (ClangDecl.declarator ("bar")))),
          explosionKind := ExplosionKind.minimal, uncurryLevel := 0,
          isLocalLinkage := false } = Option.some (("foo_impl").data) ∧
      ("foo_impl").data ≠ ("bar").data) ∧
    (LinkEntity.mangle
        { kind := LinkEntityKind.function
            (sampleFunc ("") (Option.some (ClangDecl.objcMethod ("init")))),
          explosionKind := ExplosionKind.minimal, uncurryLevel := 0,
          isLocalLinkage := false } = Option.some (("_T1fBp").data) ∧
      ("_T1fBp").data ≠ ("init").data) := by
  refine ⟨⟨?_, by decide⟩, ⟨?_, by decide⟩, ⟨?_, by decide⟩⟩
  · simp [LinkEntity.mangle, LinkEntity.mangleM, mangleEntity, mangleDeclName,
      mangleContextOf, mangleDeclContext, mangleDeclType, mangleType,
      mangleIdentifier, localMarker, natChars, MangleM.pure, MangleM.get,
      MangleM.modify, MangleM.ofOption, MangleState.initial, sampleVar,
      ValueDecl.name, ValueDecl.kind, ValueDecl.context, ValueDecl.ty,
      ValueDecl.asmName, ValueDecl.clang, ValueDecl.isClassDecl] <;> decide
  · simp [LinkEntity.mangle, LinkEntity.mangleM, sampleFunc, ValueDecl.asmName,
      ValueDecl.clang, MangleM.pure]
  · simp [LinkEntity.mangle, LinkEntity.mangleM, mangleEntity, mangleDeclName,
      mangleContextOf, mangleDeclContext, mangleDeclType, mangleType,
      mangleIdentifier, localMarker, natChars, MangleM.pure, MangleM.get,
      MangleM.modify, MangleM.ofOption, MangleState.initial, sampleFunc,
      ValueDecl.name, ValueDecl.kind, ValueDecl.context, ValueDecl.ty,
      ValueDecl.asmName, ValueDecl.clang, ValueDecl.isClassDecl] <;> decide

/-- Witness for C8: the amended bypasses at concrete declarations. -/
theorem bypass_semantics_witness :
    (LinkEntity.mangle
        { kind := LinkEntityKind.function
            (sampleFunc ("foo_impl") (Option.some (ClangDecl.declarator ("bar")))),
          explosionKind := ExplosionKind.minimal, uncurryLevel := 0,
          isLocalLinkage := false } =
      Option.some ((sampleFunc ("foo_impl")
        (Option.some (ClangDecl.declarator ("bar")))).asmName.data)) ∧
    (LinkEntity.mangle
        { kind := LinkEntityKind.function
            (sampleFunc ("") (Option.some (ClangDecl.declarator ("bar")))),
          explosionKind := ExplosionKind.minimal, uncurryLevel := 0,
          isLocalLinkage := false } = Option.some (("bar").data)) ∧
    (LinkEntity.mangle
        { kind := LinkEntityKind.other
            (sampleFunc ("") (Option.some (ClangDecl.declarator ("bar")))),
          explosionKind := ExplosionKind.minimal, uncurryLevel := 0,
          isLocalLinkage := false } = Option.some (("bar").data)) := by
  refine ⟨?_, ?_, ?_⟩
  · exact bypass_semantics.1 _ ExplosionKind.minimal 0 false (by decide)
  · exact bypass_semantics.2.1 _ ExplosionKind.minimal 0 false ("bar") (by rfl) (by rfl)
  · exact bypass_semantics.2.2 _ ExplosionKind.minimal 0 false ("bar") (by rfl)

/-- C9 counterexample: the archetype map is not part of the saved and
restored binding state.  After a descent through manglePolymorphicType the
depth counter is back to its initial value, but the archetype bound during
the descent is still recorded in the final state, unlike what saving and
restoring the whole binding state would give. -/
theorem binding_map_not_restored :
    manglePolymorphicType sampleGenericParams Ty.builtinRawPointer
        Ty.builtinRawPointer false ExplosionKind.minimal 0 MangleState.initial =
      Option.some (("__FBpBp").data,
        { substitutions := [], archetypes := [(7, { depth := 1, index := 0 })],
          archetypesDepth := 0 }) ∧
    ({ substitutions := [], archetypes := [(7, { depth := 1, index := 0 })],
        archetypesDepth := 0 } : MangleState).archetypes ≠
      MangleState.initial.archetypes := by
  constructor
  · simp [manglePolymorphicType, bindGenericParameters, bindArchetypes,
      GenericParamList.chainLength, findArchetype, mangleProtocolListDecls,
      mangleFunctionType, mangleType, sampleGenericParams, MangleM.pure,
      MangleM.get, MangleM.modify, MangleState.initial] <;> decide
  · decide

/-- Witness for C9: the depth-restoration theorem applied to the concrete
descent used in the counterexample, and to a concrete mangleDeclType call. -/
theorem binding_depth_restored_witness :
    (({ substitutions := [], archetypes := [(7, { depth := 1, index := 0 })],
        archetypesDepth := 0 } : MangleState).archetypesDepth =
      MangleState.initial.archetypesDepth) ∧
    (MangleState.initial.archetypesDepth = MangleState.initial.archetypesDepth) := by
  constructor
  · exact binding_depth_restored.1 sampleGenericParams Ty.builtinRawPointer
      Ty.builtinRawPointer false ExplosionKind.minimal 0 MangleState.initial
      (("__FBpBp").data) _
      (by simp [manglePolymorphicType, bindGenericParameters, bindArchetypes,
        GenericParamList.chainLength, findArchetype, mangleProtocolListDecls,
        mangleFunctionType, mangleType, sampleGenericParams, MangleM.pure,
        MangleM.get, MangleM.modify, MangleState.initial] <;> decide)
  · exact binding_depth_restored.2 (sampleVar ("")) ExplosionKind.minimal 0
      MangleState.initial (("Bp").data) _
      (by simp [mangleDeclType, mangleType, sampleVar, MangleM.pure, MangleM.get,
        MangleM.modify, MangleState.initial] <;> decide)

/-- A start-safe emission is nonempty. -/
theorem startOk_ne_nil (o : List Char) (h : startOk o = true) : o ≠ [] := by
  cases o with
  | nil => simp [startOk] at h
  | cons c rest => simp

/-- The last character of an append with a nonempty right part is the right
part's last character. -/
theorem lastNotDigit_append (a b : List Char) (hb : b ≠ []) :
    lastNotDigit (a ++ b) = lastNotDigit b := by
  simp [lastNotDigit, List.getLast?_append_of_ne_nil a hb]

/-- An emission ending in an explicit terminator character ends in exactly
that character. -/
theorem lastNotDigit_concat (a : List Char) (c : Char) :
    lastNotDigit (a ++ [c]) = !c.isDigit := by
  rw [lastNotDigit_append a [c] (by simp)]
  simp [lastNotDigit]

/-- Lookup in a table whose values are all non-digits yields a non-digit. -/
theorem lookupOperatorChar_not_digit :
    ∀ (tbl : List (Char × Char)) (c c1 : Char),
      lookupOperatorChar tbl c = Option.some c1 →
      tbl.all (fun kv => !(kv.2.isDigit)) = true → c1.isDigit = false := by
  intro tbl
  induction tbl with
  | nil => intro c c1 h _; exact absurd h (by simp [lookupOperatorChar])
  | cons kv rest ih =>
    intro c c1 h hall
    cases kv with
    | mk k v =>
      simp only [lookupOperatorChar] at h
      simp only [List.all_cons, Bool.and_eq_true] at hall
      by_cases hck : c = k
      · rw [if_pos hck] at h
        injection h with h2
        subst h2
        simpa using hall.1
      · rw [if_neg hck] at h
        exact ih c c1 h hall.2

/-- Every operator-character translation produces a non-digit letter. -/
theorem mangleOperatorChar_not_digit (c c1 : Char)
    (h : mangleOperatorChar c = Option.some c1) : c1.isDigit = false :=
  lookupOperatorChar_not_digit operatorCharTable c c1 h (by decide)

/-- A successful operator-identifier translation of a nonempty string is
nonempty and ends in a non-digit. -/
theorem mangleOperatorChars_boundary :
    ∀ (l l' : List Char), mangleOperatorChars l = Option.some l' →
      ((l' = []) → (l = [])) ∧ (l' = [] ∨ lastNotDigit l' = true) := by
  intro l
  induction l with
  | nil =>
    intro l' h
    simp only [mangleOperatorChars, Option.some.injEq] at h
    subst h
    exact ⟨fun _ => rfl, Or.inl rfl⟩
  | cons c rest ih =>
    intro l' h
    simp only [mangleOperatorChars] at h
    cases hc : mangleOperatorChar c with
    | none => rw [hc] at h; exact absurd h (by simp)
    | some c1 =>
      rw [hc] at h
      cases hr : mangleOperatorChars rest with
      | none => rw [hr] at h; exact absurd h (by simp)
      | some rest1 =>
        rw [hr] at h
        simp only [Option.some.injEq] at h
        subst h
        refine ⟨by simp, Or.inr ?_⟩
        by_cases hnil : rest1 = []
        · subst hnil
          simp [lastNotDigit, mangleOperatorChar_not_digit c c1 hc]
        · have hlast : lastNotDigit rest1 = true := by
            cases (ih rest1 hr).2 with
            | inl h0 => exact absurd h0 hnil
            | inr hok => exact hok
          calc lastNotDigit (c1 :: rest1) = lastNotDigit ([c1] ++ rest1) := by simp
            _ = lastNotDigit rest1 := lastNotDigit_append [c1] rest1 hnil
            _ = true := hlast

/-- A successful identifier mangling is nonempty, and ends in a non-digit
whenever the identifier does (operator spellings always end in a letter). -/
theorem mangleIdentifier_boundary (ident : Identifier) (st : MangleState)
    (o : List Char) (st' : MangleState)
    (h : mangleIdentifier ident st = Option.some (o, st')) :
    o ≠ [] ∧ (identOk ident = true → lastNotDigit o = true) := by
  unfold mangleIdentifier at h
  by_cases hemp : ident.str.data = []
  · rw [if_pos hemp] at h
    exact absurd h (by simp [MangleM.fail])
  · rw [if_neg hemp] at h
    by_cases hop : ident.isOperator = false
    · rw [if_pos hop] at h
      simp only [MangleM.pure, Option.some.injEq, Prod.mk.injEq] at h
      obtain ⟨ho, -⟩ := h
      subst ho
      constructor
      · simp [hemp]
      · intro hid
        rw [lastNotDigit_append _ _ hemp]
        simpa [identOk] using hid
    · rw [if_neg hop] at h
      simp only [MangleM.run_bind, MangleM.ofOption] at h
      cases htr : mangleOperatorChars ident.str.data with
      | none => rw [htr] at h; exact absurd h (by simp)
      | some translated =>
        simp only [htr, MangleM.pure, Option.some.injEq, Prod.mk.injEq] at h
        obtain ⟨ho, -⟩ := h
        subst ho
        have hprops := mangleOperatorChars_boundary ident.str.data translated htr
        have htne : translated ≠ [] := fun hnil => hemp (hprops.1 hnil)
        have hlast : lastNotDigit translated = true := by
          cases hprops.2 with
          | inl h0 => exact absurd h0 htne
          | inr hok => exact hok
        refine ⟨by simp, fun _ => ?_⟩
        calc lastNotDigit ('o' :: 'p' :: (natChars ident.str.data.length ++ translated))
            = lastNotDigit (('o' :: 'p' :: natChars ident.str.data.length) ++ translated) := by
              simp
          _ = lastNotDigit translated := lastNotDigit_append _ _ htne
          _ = true := hlast

/-- A successful decl-name production (without type) is nonempty and ends
with the declaration's identifier, hence in a non-digit whenever the
identifier does. -/
theorem mangleDeclName_no_boundary (d : ValueDecl) (st : MangleState) (o : List Char)
    (st' : MangleState)
    (h : mangleDeclName d IncludeType.no st = Option.some (o, st')) :
    o ≠ [] ∧ (identOk d.name = true → lastNotDigit o = true) := by
  rw [mangleDeclName.eq_def] at h
  simp only [MangleM.run_bind] at h
  cases hc : mangleContextOf d st with
  | none => rw [hc] at h; exact absurd h (by simp)
  | some p =>
    cases p with
    | mk contextChars st1 =>
      simp only [hc] at h
      cases hi : mangleIdentifier d.name st1 with
      | none => rw [hi] at h; exact absurd h (by simp)
      | some q =>
        cases q with
        | mk identChars st2 =>
          simp only [hi, MangleM.pure, Option.some.injEq, Prod.mk.injEq] at h
          obtain ⟨ho, -⟩ := h
          subst ho
          have hident := mangleIdentifier_boundary d.name st1 identChars st2 hi
          refine ⟨?_, fun hid => ?_⟩
          · intro hnil
            exact hident.1 (List.append_eq_nil.mp hnil).2
          · rw [lastNotDigit_append _ _ hident.1]
            exact hident.2 hid

/-- Standard-substitution tokens respect both token boundaries. -/
theorem lookupStandardSubstitution_boundary :
    ∀ (tbl : List (String × List Char)) (s : String) (token : List Char),
      lookupStandardSubstitution tbl s = Option.some token →
      tbl.all (fun kv => startOk kv.2 && lastNotDigit kv.2) = true →
      startOk token = true ∧ lastNotDigit token = true := by
  intro tbl
  induction tbl with
  | nil => intro s token h _; exact absurd h (by simp [lookupStandardSubstitution])
  | cons kv rest ih =>
    intro s token h hall
    cases kv with
    | mk k v =>
      simp only [lookupStandardSubstitution] at h
      simp only [List.all_cons, Bool.and_eq_true] at hall
      by_cases hsk : s = k
      · rw [if_pos hsk] at h
        injection h with h2
        subst h2
        exact ⟨hall.1.1, hall.1.2⟩
      · rw [if_neg hsk] at h
        exact ih s token h hall.2

/-- Any token emitted by tryMangleStandardSubstitution respects both token
boundaries. -/
theorem tryStd_boundary (d : ValueDecl) (token : List Char)
    (h : tryMangleStandardSubstitution d = Option.some token) :
    startOk token = true ∧ lastNotDigit token = true := by
  unfold tryMangleStandardSubstitution at h
  cases hctx : d.context with
  | translationUnit mname mid mparent =>
    rw [hctx] at h
    dsimp only at h
    by_cases hsw : isSwiftTranslationUnit mname mparent = true
    · rw [if_pos hsw] at h
      exact lookupStandardSubstitution_boundary standardSubstitutionTable d.name.str
        token h (by decide)
    · rw [if_neg hsw] at h
      exact absurd h (by simp)
  | builtinModule => rw [hctx] at h; exact absurd h (by simp)
  | clangModule => rw [hctx] at h; exact absurd h (by simp)
  | nominalTypeDecl decl => rw [hctx] at h; exact absurd h (by simp)
  | extensionDecl ty => rw [hctx] at h; exact absurd h (by simp)
  | capturingExpr fd => rw [hctx] at h; exact absurd h (by simp)
  | constructorDecl decl => rw [hctx] at h; exact absurd h (by simp)
  | destructorDecl decl => rw [hctx] at h; exact absurd h (by simp)
  | topLevelCodeDecl => rw [hctx] at h; exact absurd h (by simp)

/-- A successful substitution back-reference token respects both token
boundaries and leaves the state unchanged. -/
theorem trySub_boundary (key : SubstKey) (st : MangleState) (token : List Char)
    (st2 : MangleState)
    (h : tryMangleSubstitution key st = Option.some (Option.some token, st2)) :
    startOk token = true ∧ lastNotDigit token = true ∧ st2 = st := by
  unfold tryMangleSubstitution at h
  simp only [MangleM.run_bind, MangleM.get] at h
  cases hidx : substIndex st.substitutions key with
  | none => simp [hidx, MangleM.pure] at h
  | some index =>
    simp only [hidx, MangleM.pure, Option.some.injEq, Prod.mk.injEq] at h
    obtain ⟨htok, hst⟩ := h
    subst htok
    refine ⟨by simp [startOk], ?_, hst.symm⟩
    rw [show 'S' :: ((if index = 0 then [] else natChars (index - 1)) ++ ['_']) =
      ('S' :: (if index = 0 then [] else natChars (index - 1))) ++ ['_'] from by simp]
    rw [lastNotDigit_concat]
    decide

/-- A well-named declaration has a well-formed identifier. -/
theorem namesOkDecl_name (d : ValueDecl) (h : namesOkDecl d = true) :
    identOk d.name = true := by
  cases d with
  | mk name kind context contextGenericParams ty clang asmName isObjC =>
    simp only [namesOkDecl, ValueDecl.name, Bool.and_eq_true] at h ⊢
    exact h.1.1.1.1

/-- A successful nominal-type production respects the start boundary, and
the tail boundary when the request's identifiers are well-formed. -/
theorem mangleNominalType_boundary (d : ValueDecl) (e : ExplosionKind)
    (st : MangleState) (o : List Char) (st' : MangleState)
    (h : mangleNominalType d e st = Option.some (o, st')) :
    startOk o = true ∧ (namesOkDecl d = true → lastNotDigit o = true) := by
  rw [mangleNominalType.eq_def] at h
  cases hk : d.kind with
  | nominalTypeDecl nk tid =>
    rw [hk] at h
    cases hstd : tryMangleStandardSubstitution d with
    | some token =>
      rw [hstd] at h
      simp only [MangleM.pure, Option.some.injEq, Prod.mk.injEq] at h
      obtain ⟨rfl, -⟩ := h
      exact ⟨(tryStd_boundary d _ hstd).1, fun _ => (tryStd_boundary d _ hstd).2⟩
    | none =>
      rw [hstd] at h
      simp only [MangleM.run_bind] at h
      cases htry : tryMangleSubstitution (SubstKey.typeKey tid) st with
      | none => rw [htry] at h; exact absurd h (by simp)
      | some p =>
        cases p with
        | mk found st1 =>
          rw [htry] at h
          dsimp only at h
          cases found with
          | some token =>
            simp only [MangleM.pure, Option.some.injEq, Prod.mk.injEq] at h
            obtain ⟨rfl, -⟩ := h
            have hb := trySub_boundary (SubstKey.typeKey tid) st _ st1 htry
            exact ⟨hb.1, fun _ => hb.2.1⟩
          | none =>
            simp only [MangleM.run_bind] at h
            cases hn : mangleDeclName d IncludeType.no st1 with
            | none => rw [hn] at h; exact absurd h (by simp)
            | some q =>
              cases q with
              | mk nameChars st2 =>
                simp only [hn, addSubstitution, MangleM.modify, MangleM.pure,
                  Option.some.injEq, Prod.mk.injEq] at h
                obtain ⟨ho, -⟩ := h
                have hname := mangleDeclName_no_boundary d st1 nameChars st2 hn
                rw [← ho]
                constructor
                · cases nk <;> simp [getSpecifierForNominalType, startOk]
                · intro hnames
                  calc lastNotDigit (getSpecifierForNominalType nk :: nameChars)
                      = lastNotDigit ([getSpecifierForNominalType nk] ++ nameChars) := by
                        simp
                    _ = lastNotDigit nameChars :=
                        lastNotDigit_append _ _ hname.1
                    _ = true := hname.2 (namesOkDecl_name d hnames)
  | typeDecl => rw [hk] at h; exact absurd h (by simp [MangleM.fail])
  | funcDecl accessor => rw [hk] at h; exact absurd h (by simp [MangleM.fail])
  | constructorDecl => rw [hk] at h; exact absurd h (by simp [MangleM.fail])
  | destructorDecl => rw [hk] at h; exact absurd h (by simp [MangleM.fail])
  | varDecl => rw [hk] at h; exact absurd h (by simp [MangleM.fail])
  | subscriptDecl => rw [hk] at h; exact absurd h (by simp [MangleM.fail])
  | oneOfElementDecl hasArgumentType =>
    rw [hk] at h; exact absurd h (by simp [MangleM.fail])

/-- The start-boundary check only inspects the head character. -/
theorem startOk_cons (c : Char) (rest : List Char) :
    startOk (c :: rest) = (!c.isDigit && !(c = '_')) := rfl

/-- Last-character safety for the Q-production shape. -/
theorem lastNotDigit_q_shape (a b : List Char) :
    lastNotDigit ('Q' :: (a ++ (b ++ ['_']))) = true := by
  rw [show 'Q' :: (a ++ (b ++ ['_'])) = ('Q' :: (a ++ b)) ++ ['_'] from by simp,
    lastNotDigit_concat]
  decide

/-- Token-boundary safety of the type encoder, by strong induction on size:
on success the output is nonempty and starts with a letter, and ends in a
non-digit whenever every identifier of the request is well-formed. -/
theorem mangleType_boundary_all :
    ∀ n : Nat, ∀ t : Ty, sizeOf t ≤ n →
      ∀ (e : ExplosionKind) (u : Nat) (st : MangleState) (o : List Char)
        (st' : MangleState),
      mangleType t e u st = Option.some (o, st') →
      startOk o = true ∧ (namesOkTy t = true → lastNotDigit o = true) := by
  intro n
  induction n with
  | zero => intro t ht; exfalso; cases t <;> simp at ht
  | succ n ih =>
    intro t ht e u st o st' h
    cases t with
    | builtinFloat fpKind =>
      cases fpKind <;>
        (simp only [mangleType, MangleM.pure, Option.some.injEq, Prod.mk.injEq] at h;
         obtain ⟨rfl, -⟩ := h;
         exact ⟨by decide, fun _ => by decide⟩)
    | builtinInteger bitWidth =>
      simp only [mangleType, MangleM.pure, Option.some.injEq, Prod.mk.injEq] at h
      obtain ⟨rfl, -⟩ := h
      refine ⟨by simp only [List.cons_append, startOk_cons]; decide, fun _ => ?_⟩
      rw [lastNotDigit_concat]
      decide
    | builtinRawPointer =>
      simp only [mangleType, MangleM.pure, Option.some.injEq, Prod.mk.injEq] at h
      obtain ⟨rfl, -⟩ := h
      exact ⟨by decide, fun _ => by decide⟩
    | builtinOpaquePointer =>
      simp only [mangleType, MangleM.pure, Option.some.injEq, Prod.mk.injEq] at h
      obtain ⟨rfl, -⟩ := h
      exact ⟨by decide, fun _ => by decide⟩
    | builtinObjectPointer =>
      simp only [mangleType, MangleM.pure, Option.some.injEq, Prod.mk.injEq] at h
      obtain ⟨rfl, -⟩ := h
      exact ⟨by decide, fun _ => by decide⟩
    | builtinObjCPointer =>
      simp only [mangleType, MangleM.pure, Option.some.injEq, Prod.mk.injEq] at h
      obtain ⟨rfl, -⟩ := h
      exact ⟨by decide, fun _ => by decide⟩
    | sugared underlying =>
      have hu : sizeOf underlying ≤ n := by simp at ht; omega
      simp only [mangleType] at h
      have hIH := ih underlying hu e u st o st' h
      exact ⟨hIH.1, fun hn => hIH.2 (by simpa [namesOkTy] using hn)⟩
    | metaType instanceTy =>
      have hi : sizeOf instanceTy ≤ n := by simp at ht; omega
      simp only [mangleType, MangleM.run_bind] at h
      cases hic : mangleType instanceTy ExplosionKind.minimal 0 st with
      | none => rw [hic] at h; exact absurd h (by simp)
      | some p =>
        cases p with
        | mk instanceChars st1 =>
          simp only [hic, MangleM.pure, Option.some.injEq, Prod.mk.injEq] at h
          obtain ⟨rfl, -⟩ := h
          have hIH := ih instanceTy hi ExplosionKind.minimal 0 st instanceChars st1 hic
          have hne := startOk_ne_nil _ hIH.1
          refine ⟨by rw [startOk_cons]; decide, fun hn => ?_⟩
          rw [show 'M' :: instanceChars = ['M'] ++ instanceChars from rfl,
            lastNotDigit_append _ _ hne]
          exact hIH.2 (by simpa [namesOkTy] using hn)
    | lvalue objectTy =>
      have hi : sizeOf objectTy ≤ n := by simp at ht; omega
      simp only [mangleType, MangleM.run_bind] at h
      cases hic : mangleType objectTy ExplosionKind.minimal 0 st with
      | none => rw [hic] at h; exact absurd h (by simp)
      | some p =>
        cases p with
        | mk objectChars st1 =>
          simp only [hic, MangleM.pure, Option.some.injEq, Prod.mk.injEq] at h
          obtain ⟨rfl, -⟩ := h
          have hIH := ih objectTy hi ExplosionKind.minimal 0 st objectChars st1 hic
          have hne := startOk_ne_nil _ hIH.1
          refine ⟨by rw [startOk_cons]; decide, fun hn => ?_⟩
          rw [show 'R' :: objectChars = ['R'] ++ objectChars from rfl,
            lastNotDigit_append _ _ hne]
          exact hIH.2 (by simpa [namesOkTy] using hn)
    | tuple fields =>
      simp only [mangleType, MangleM.run_bind] at h
      cases hf : mangleTupleFields fields e st with
      | none => rw [hf] at h; exact absurd h (by simp)
      | some p =>
        cases p with
        | mk fieldChars st1 =>
          simp only [hf, MangleM.pure, Option.some.injEq, Prod.mk.injEq] at h
          obtain ⟨rfl, -⟩ := h
          refine ⟨by simp only [List.cons_append, startOk_cons]; decide, fun _ => ?_⟩
          rw [lastNotDigit_concat]
          decide
    | nominal decl =>
      simp only [mangleType] at h
      have hb := mangleNominalType_boundary decl e st o st' h
      exact ⟨hb.1, fun hn => hb.2 (by simpa [namesOkTy] using hn)⟩
    | boundGeneric decl args =>
      simp only [mangleType, MangleM.run_bind] at h
      cases hn : mangleNominalType decl e st with
      | none => rw [hn] at h; exact absurd h (by simp)
      | some p =>
        cases p with
        | mk nameChars st1 =>
          simp only [hn] at h
          cases ha : mangleBoundGenericArgs args st1 with
          | none => rw [ha] at h; exact absurd h (by simp)
          | some q =>
            cases q with
            | mk argChars st2 =>
              simp only [ha, MangleM.pure, Option.some.injEq, Prod.mk.injEq] at h
              obtain ⟨rfl, -⟩ := h
              refine ⟨by simp only [List.cons_append, startOk_cons]; decide, fun _ => ?_⟩
              rw [lastNotDigit_concat]
              decide
    | polymorphicFunction genericParams input result isBlock =>
      have hr : sizeOf result ≤ n := by simp at ht; omega
      simp only [mangleType, MangleM.run_bind] at h
      cases hb : manglePolymorphicType genericParams input result isBlock e u st with
      | none => rw [hb] at h; exact absurd h (by simp)
      | some p =>
        cases p with
        | mk bodyChars st1 =>
          simp only [hb, MangleM.pure, Option.some.injEq, Prod.mk.injEq] at h
          obtain ⟨rfl, -⟩ := h
          refine ⟨by rw [startOk_cons]; decide, fun hn => ?_⟩
          simp only [manglePolymorphicType, MangleM.run_bind, MangleM.get] at hb
          cases hbg : bindGenericParameters genericParams true st with
          | none => rw [hbg] at hb; exact absurd hb (by simp)
          | some pq =>
            cases pq with
            | mk paramChars st2 =>
              simp only [hbg] at hb
              cases hft : mangleFunctionType input result isBlock e u st2 with
              | none => rw [hft] at hb; exact absurd hb (by simp)
              | some pr =>
                cases pr with
                | mk fnChars st3 =>
                  simp only [hft, MangleM.modify, MangleM.pure, Option.some.injEq,
                    Prod.mk.injEq] at hb
                  obtain ⟨hbody, -⟩ := hb
                  simp only [mangleFunctionType, MangleM.run_bind] at hft
                  cases hin : mangleType input e 0 st2 with
                  | none => rw [hin] at hft; exact absurd hft (by simp)
                  | some pi =>
                    cases pi with
                    | mk inputChars st4 =>
                      simp only [hin] at hft
                      cases hres : mangleType result e (u - 1) st4 with
                      | none => rw [hres] at hft; exact absurd hft (by simp)
                      | some pres =>
                        cases pres with
                        | mk resultChars st5 =>
                          simp only [hres, MangleM.pure, Option.some.injEq,
                            Prod.mk.injEq] at hft
                          obtain ⟨hfn, -⟩ := hft
                          have hIHr := ih result hr e (u - 1) st4 resultChars st5 hres
                          have hner := startOk_ne_nil _ hIHr.1
                          rw [← hbody, ← hfn]
                          rw [show 'U' :: (paramChars ++
                              ((if isBlock = true then 'b'
                                else if 0 < u then 'f' else 'F') ::
                                inputChars ++ resultChars)) =
                            ('U' :: (paramChars ++
                              ((if isBlock = true then 'b'
                                else if 0 < u then 'f' else 'F') ::
                                inputChars))) ++ resultChars from by simp]
                          rw [lastNotDigit_append _ _ hner]
                          simp only [namesOkTy, Bool.and_eq_true] at hn
                          exact hIHr.2 hn.2
    | archetype id =>
      simp only [mangleType, MangleM.run_bind, MangleM.get] at h
      cases hfind : findArchetype st.archetypes id with
      | none => rw [hfind] at h; exact absurd h (by simp [MangleM.fail])
      | some info =>
        simp only [hfind] at h
        by_cases hd : st.archetypesDepth < info.depth
        · rw [if_pos hd] at h; exact absurd h (by simp [MangleM.fail])
        · rw [if_neg hd] at h
          simp only [MangleM.pure, Option.some.injEq, Prod.mk.injEq] at h
          obtain ⟨rfl, -⟩ := h
          refine ⟨by rw [startOk_cons]; decide, fun _ => ?_⟩
          simp only [indexChars]
          exact lastNotDigit_q_shape _ _
    | function input result isBlock =>
      have hr : sizeOf result ≤ n := by simp at ht; omega
      simp only [mangleType, mangleFunctionType, MangleM.run_bind] at h
      cases hin : mangleType input e 0 st with
      | none => rw [hin] at h; exact absurd h (by simp)
      | some p =>
        cases p with
        | mk inputChars st1 =>
          simp only [hin] at h
          cases hres : mangleType result e (u - 1) st1 with
          | none => rw [hres] at h; exact absurd h (by simp)
          | some q =>
            cases q with
            | mk resultChars st2 =>
              simp only [hres, MangleM.pure, Option.some.injEq, Prod.mk.injEq] at h
              obtain ⟨rfl, -⟩ := h
              have hIHr := ih result hr e (u - 1) st1 resultChars st2 hres
              have hner := startOk_ne_nil _ hIHr.1
              constructor
              · cases isBlock with
                | true =>
                  simp only [List.cons_append, startOk_cons, eq_self_iff_true,
                    if_true]
                  decide
                | false =>
                  by_cases hu0 : 0 < u
                  · simp only [List.cons_append, startOk_cons,
                      if_neg (show ¬(false = true) by decide), if_pos hu0]
                    decide
                  · simp only [List.cons_append, startOk_cons,
                      if_neg (show ¬(false = true) by decide), if_neg hu0]
                    decide
              · intro hn
                rw [show ((if isBlock = true then 'b'
                      else if 0 < u then 'f' else 'F') ::
                      inputChars ++ resultChars) =
                    ((if isBlock = true then 'b'
                      else if 0 < u then 'f' else 'F') ::
                      inputChars) ++ resultChars from by simp]
                rw [lastNotDigit_append _ _ hner]
                simp only [namesOkTy, Bool.and_eq_true] at hn
                exact hIHr.2 hn.2
    | array size baseTy =>
      have hi : sizeOf baseTy ≤ n := by simp at ht; omega
      simp only [mangleType, MangleM.run_bind] at h
      cases hic : mangleType baseTy ExplosionKind.minimal 0 st with
      | none => rw [hic] at h; exact absurd h (by simp)
      | some p =>
        cases p with
        | mk baseChars st1 =>
          simp only [hic, MangleM.pure, Option.some.injEq, Prod.mk.injEq] at h
          obtain ⟨rfl, -⟩ := h
          have hIH := ih baseTy hi ExplosionKind.minimal 0 st baseChars st1 hic
          have hne := startOk_ne_nil _ hIH.1
          refine ⟨by simp only [List.cons_append, startOk_cons]; decide, fun hn => ?_⟩
          rw [lastNotDigit_append _ _ hne]
          exact hIH.2 (by simpa [namesOkTy] using hn)
    | protocolComposition protocols =>
      simp only [mangleType] at h
      by_cases hlen : protocols.length = 1
      · rw [if_pos hlen] at h; exact absurd h (by simp [MangleM.fail])
      · rw [if_neg hlen] at h
        simp only [MangleM.run_bind] at h
        cases hl : mangleProtocolListTypes protocols st with
        | none => rw [hl] at h; exact absurd h (by simp)
        | some p =>
          cases p with
          | mk listChars st1 =>
            simp only [hl, MangleM.pure, Option.some.injEq, Prod.mk.injEq] at h
            obtain ⟨rfl, -⟩ := h
            refine ⟨by simp only [List.cons_append, startOk_cons]; decide, fun _ => ?_⟩
            rw [lastNotDigit_concat]
            decide

/-- C2 (amended): token-boundary safety holds for the type-mangling
production: on success the output of mangleType is nonempty and never begins
with a decimal digit or an underscore; and it never ends with a decimal
digit provided every identifier in the request is nonempty and does not end
with a digit.  (Whole-entity outputs begin with the `_T` prefix and type
manglings of declarations whose names end in digits end in digits; see the
counterexample.) -/
theorem mangleType_token_boundary :
    ∀ (t : Ty) (e : ExplosionKind) (u : Nat) (st : MangleState) (o : List Char)
      (st' : MangleState),
      mangleType t e u st = Option.some (o, st') →
      startOk o = true ∧ (namesOkTy t = true → lastNotDigit o = true) :=
  fun t e u st o st' h =>
    mangleType_boundary_all (sizeOf t) t (Nat.le_refl _) e u st o st' h

/-- Witness for C2: the boundary theorem at the concrete type Bp. -/
theorem mangleType_token_boundary_witness :
    startOk ('B' :: 'p' :: []) = true ∧
      (namesOkTy Ty.builtinRawPointer = true →
        lastNotDigit ('B' :: 'p' :: []) = true) := by
  apply mangleType_token_boundary Ty.builtinRawPointer ExplosionKind.minimal 0
    MangleState.initial ('B' :: 'p' :: []) MangleState.initial
  simp [mangleType, MangleM.pure]

/-- C2 counterexample: the claim fails for whole mangle requests.  A value
witness table request emits `_TWVBo`, which begins with an underscore; and a
type-mangling request for a struct named `Foo2` emits `V1m4Foo2`, which ends
with the decimal digit 2. -/
theorem token_boundary_counterexample :
    (LinkEntity.mangle
        { kind := LinkEntityKind.valueWitnessTable Ty.builtinObjectPointer,
          explosionKind := ExplosionKind.minimal, uncurryLevel := 0,
          isLocalLinkage := false } = Option.some (("_TWVBo").data) ∧
      (("_TWVBo").data).head? = Option.some '_') ∧
    (LinkEntity.mangle
        { kind := LinkEntityKind.typeMangling (Ty.nominal (sampleStruct ("Foo2") 1)),
          explosionKind := ExplosionKind.minimal, uncurryLevel := 0,
          isLocalLinkage := false } = Option.some (("V1m4Foo2").data) ∧
      (("V1m4Foo2").data).getLast? = Option.some '2' ∧ ('2').isDigit = true) := by
  refine ⟨⟨?_, by decide⟩, ?_, by decide, by decide⟩
  · simp [LinkEntity.mangle, LinkEntity.mangleM, mangleType, MangleM.pure,
      MangleState.initial] <;> decide
  · simp [LinkEntity.mangle, LinkEntity.mangleM, mangleType, mangleNominalType,
      mangleDeclName, mangleContextOf, mangleDeclContext, mangleIdentifier,
      tryMangleSubstitution, tryMangleStandardSubstitution,
      lookupStandardSubstitution, standardSubstitutionTable, addSubstitution,
      substIndex, isSwiftTranslationUnit, getSpecifierForNominalType, natChars,
      MangleM.pure, MangleM.get, MangleM.modify, MangleM.ofOption,
      MangleState.initial, moduleM, sampleStruct, ValueDecl.name, ValueDecl.kind,
      ValueDecl.context] <;> decide
